import Mathlib

/-!
Verification of the connection/protocol engine of `labrad/backend.py`
(pylabrad's asyncore backend).

The development shallowly embeds the two classes under study:

* `AsyncoreProtocol` — the protocol engine: request-ID allocation and
  recycling (`startRequest`), the pending-request table (`requests`), the
  free-ID pool (`pool`), the outbound command queue (`queue`, drained by
  `flushCommands`), termination (`terminate`), and inbound demultiplexing
  (`handleResponse`).
* `AsyncoreConnection` — the facade: the name→ID lookup cache
  (`_lookupNames`), the login handshake (`login` / `_connect`), and the
  connected-flag bookkeeping (`_sendPacket` / `disconnect`).

Python dictionaries are embedded as association lists (`alookup` / `aset` /
`aerase`), the Python `set` used for the ID pool as a duplicate-free list,
futures as an explicit table from future identifiers to a
pending/completed/failed state, and the byte-level wire codec
(`flattenPacket`) as an abstract buffer entry retaining the packet fields.
-/

namespace LabradBackend

/-! ### Association lists (embedding Python `dict`) -/

/-- Dictionary lookup: value stored under key `k`, if any. -/
def alookup {κ α : Type} [DecidableEq κ] (l : List (κ × α)) (k : κ) : Option α :=
  (l.find? (fun p => p.1 = k)).map Prod.snd

/-- Dictionary deletion: `del d[k]`. -/
def aerase {κ α : Type} [DecidableEq κ] (l : List (κ × α)) (k : κ) : List (κ × α) :=
  l.filter (fun p => decide (p.1 ≠ k))

/-- Dictionary assignment: `d[k] = v`. -/
def aset {κ α : Type} [DecidableEq κ] (l : List (κ × α)) (k : κ) (v : α) : List (κ × α) :=
  (k, v) :: aerase l k

/-- The keys of an association list. -/
def akeys {κ α : Type} [DecidableEq κ] (l : List (κ × α)) : List κ :=
  l.map Prod.fst

theorem alookup_nil {κ α : Type} [DecidableEq κ] (k : κ) : alookup ([] : List (κ × α)) k = none := rfl

theorem alookup_cons {κ α : Type} [DecidableEq κ] (p : κ × α) (l : List (κ × α)) (k : κ) :
    alookup (p :: l) k = if p.1 = k then some p.2 else alookup l k := by
  simp only [alookup, List.find?]
  by_cases h : p.1 = k
  · simp [h]
  · simp [h]

theorem aerase_cons {κ α : Type} [DecidableEq κ] (p : κ × α) (l : List (κ × α)) (k : κ) :
    aerase (p :: l) k = if p.1 = k then aerase l k else p :: aerase l k := by
  simp only [aerase, List.filter_cons]
  by_cases h : p.1 = k
  · simp [h]
  · simp [h]

theorem akeys_cons {κ α : Type} [DecidableEq κ] (p : κ × α) (l : List (κ × α)) :
    akeys (p :: l) = p.1 :: akeys l := rfl

theorem alookup_eq_none_of_not_mem {κ α : Type} [DecidableEq κ] {l : List (κ × α)} {k : κ}
    (h : k ∉ akeys l) : alookup l k = none := by
  induction l with
  | nil => rfl
  | cons p t ih =>
      rw [alookup_cons]
      rw [akeys_cons, List.mem_cons] at h
      push_neg at h
      rw [if_neg (fun hh => h.1 hh.symm)]
      exact ih h.2

theorem mem_akeys_of_alookup {κ α : Type} [DecidableEq κ] {l : List (κ × α)} {k : κ} {v : α}
    (h : alookup l k = some v) : k ∈ akeys l := by
  by_contra hk
  rw [alookup_eq_none_of_not_mem hk] at h
  exact Option.noConfusion h

theorem mem_of_alookup {κ α : Type} [DecidableEq κ] {l : List (κ × α)} {k : κ} {v : α}
    (h : alookup l k = some v) : (k, v) ∈ l := by
  induction l with
  | nil => exact Option.noConfusion h
  | cons p t ih =>
      rw [alookup_cons] at h
      by_cases hp : p.1 = k
      · rw [if_pos hp] at h
        injection h with h
        have hpv : p = (k, v) := by
          obtain ⟨a, b⟩ := p
          simp only at hp h
          rw [hp, h]
        rw [List.mem_cons]
        exact Or.inl hpv.symm
      · rw [if_neg hp] at h
        exact List.mem_cons.mpr (Or.inr (ih h))

theorem alookup_isSome_of_mem_akeys {κ α : Type} [DecidableEq κ] {l : List (κ × α)} {k : κ}
    (h : k ∈ akeys l) : ∃ v, alookup l k = some v := by
  induction l with
  | nil => simp [akeys] at h
  | cons p t ih =>
      rw [alookup_cons]
      by_cases hp : p.1 = k
      · exact ⟨p.2, if_pos hp⟩
      · rw [if_neg hp]
        apply ih
        rw [akeys_cons, List.mem_cons] at h
        cases h with
        | inl h => exact absurd h.symm hp
        | inr h => exact h

theorem aerase_of_not_mem {κ α : Type} [DecidableEq κ] {l : List (κ × α)} {k : κ}
    (h : k ∉ akeys l) : aerase l k = l := by
  induction l with
  | nil => rfl
  | cons p t ih =>
      rw [akeys_cons, List.mem_cons] at h
      push_neg at h
      rw [aerase_cons, if_neg (fun hh => h.1 hh.symm)]
      rw [ih h.2]

theorem alookup_aerase_ne {κ α : Type} [DecidableEq κ] (l : List (κ × α)) (k k' : κ) (h : k' ≠ k) :
    alookup (aerase l k) k' = alookup l k' := by
  induction l with
  | nil => rfl
  | cons p t ih =>
      rw [aerase_cons, alookup_cons]
      by_cases hp : p.1 = k
      · have hne : p.1 ≠ k' := fun hh => h (hh ▸ hp)
        rw [if_pos hp, if_neg hne, ih]
      · rw [if_neg hp, alookup_cons, ih]

theorem alookup_aerase_self {κ α : Type} [DecidableEq κ] (l : List (κ × α)) (k : κ) :
    alookup (aerase l k) k = none := by
  induction l with
  | nil => rfl
  | cons p t ih =>
      rw [aerase_cons]
      by_cases hp : p.1 = k
      · rw [if_pos hp]
        exact ih
      · rw [if_neg hp, alookup_cons, if_neg hp]
        exact ih

theorem alookup_aset_self {κ α : Type} [DecidableEq κ] (l : List (κ × α)) (k : κ) (v : α) :
    alookup (aset l k v) k = some v := by
  simp [aset, alookup_cons]

theorem alookup_aset_ne {κ α : Type} [DecidableEq κ] (l : List (κ × α)) (k k' : κ) (v : α) (h : k' ≠ k) :
    alookup (aset l k v) k' = alookup l k' := by
  rw [aset, alookup_cons, if_neg (fun hh => h hh.symm)]
  exact alookup_aerase_ne l k k' h

theorem akeys_aerase_subset {κ α : Type} [DecidableEq κ] (l : List (κ × α)) (k : κ) :
    ∀ k' ∈ akeys (aerase l k), k' ∈ akeys l := by
  intro k' h
  simp only [akeys, List.mem_map] at h ⊢
  obtain ⟨p, hp, he⟩ := h
  exact ⟨p, List.mem_of_mem_filter hp, he⟩

theorem not_mem_akeys_aerase_self {κ α : Type} [DecidableEq κ] (l : List (κ × α)) (k : κ) :
    k ∉ akeys (aerase l k) := by
  intro h
  obtain ⟨v, hv⟩ := alookup_isSome_of_mem_akeys h
  rw [alookup_aerase_self] at hv
  exact Option.noConfusion hv

theorem mem_akeys_aerase {κ α : Type} [DecidableEq κ] {l : List (κ × α)} {k k' : κ}
    (h : k' ∈ akeys l) (hne : k' ≠ k) : k' ∈ akeys (aerase l k) := by
  obtain ⟨v, hv⟩ := alookup_isSome_of_mem_akeys h
  have h2 := alookup_aerase_ne l k k' hne
  rw [hv] at h2
  exact mem_akeys_of_alookup h2

theorem aerase_length_of_mem {κ α : Type} [DecidableEq κ] {l : List (κ × α)} {k : κ}
    (hnd : (akeys l).Nodup) (h : k ∈ akeys l) :
    (aerase l k).length + 1 = l.length := by
  induction l with
  | nil => simp [akeys] at h
  | cons p t ih =>
      rw [akeys_cons, List.nodup_cons] at hnd
      rw [akeys_cons, List.mem_cons] at h
      rw [aerase_cons]
      by_cases hp : p.1 = k
      · rw [if_pos hp]
        have hnt : k ∉ akeys t := hp ▸ hnd.1
        rw [aerase_of_not_mem hnt]
        simp
      · rw [if_neg hp]
        have hkt : k ∈ akeys t := by
          cases h with
          | inl h => exact absurd h.symm hp
          | inr h => exact h
        have := ih hnd.2 hkt
        simp only [List.length_cons]
        omega

theorem aerase_nodup {κ α : Type} [DecidableEq κ] {l : List (κ × α)} (hnd : (akeys l).Nodup) (k : κ) :
    (akeys (aerase l k)).Nodup := by
  induction l with
  | nil => simp [aerase, akeys]
  | cons p t ih =>
      rw [akeys_cons, List.nodup_cons] at hnd
      rw [aerase_cons]
      by_cases hp : p.1 = k
      · rw [if_pos hp]
        exact ih hnd.2
      · rw [if_neg hp, akeys_cons, List.nodup_cons]
        exact ⟨fun hmem => hnd.1 (akeys_aerase_subset t k _ hmem), ih hnd.2⟩

/-! ### Protocol engine data model (`AsyncoreProtocol`) -/

/-- Error causes appearing in the engine.  `notConnected` is
`Exception('not connected')` raised by `enqueue`; `protocolError` is
`Exception('AsyncoreProtocol error')` from `handle_error`; `connectionLost`
is `Exception('Connection lost')` from `handle_close`; `connectionClosed`
is the `'Connection closed'` reason passed by `flushCommands` on the drop
sentinel; `recordErr` is an error payload embedded in a reply record;
`timeoutUnsupported` is `Exception('Timeouts not supported in asyncore
backend')` from `_sendRequestNoLookup`; `tlsUnsupported` is the TLS
rejection at the top of `_connect`; `typeError` is the `TypeError` raised
at backend.py line 213, where `_lookupNames` subscripts the `Future`
returned by `_sendRequestNoLookup` without calling `.result()` on it. -/
inductive Err : Type
  | notConnected
  | protocolError
  | connectionLost
  | connectionClosed
  | recordErr (e : Nat)
  | timeoutUnsupported
  | tlsUnsupported
  | typeError
deriving DecidableEq, Repr

/-- A record payload in a decoded inbound packet: either a plain value or a
value that `isinstance(r[1], Exception)` classifies as an error. -/
inductive Payload : Type
  | val (v : Nat)
  | exc (e : Nat)
deriving DecidableEq, Repr

/-- An inbound record: `(setting ID, payload)`. -/
abbrev RRec : Type := Nat × Payload

/-- The state of a `concurrent.futures.Future`: pending until either
`set_result` or `set_exception` is called, and immutable afterwards. -/
inductive FState : Type
  | pending
  | completed (records : List RRec)
  | failed (e : Err)
deriving DecidableEq, Repr

/-- A command on the outbound queue: the `None` drop sentinel, the raw-string
test hack, or a `(target, context, flatrecs, future)` tuple put by
`enqueue` (`future = none` for a one-way message). -/
inductive Cmd : Type
  | sentinel
  | raw (data : List Nat)
  | packet (target : Nat) (ctx : Nat × Nat) (flatrecs : List Nat) (future : Option Nat)
deriving DecidableEq, Repr

/-- One entry of the outbound write buffer.  `flattenPacket` (the wire
codec) is abstracted: a serialized packet keeps its logical fields
`(target, context, request tag, flat records)`. -/
inductive BufEntry : Type
  | raw (data : List Nat)
  | pkt (target : Nat) (ctx : Nat × Nat) (tag : Int) (flatrecs : List Nat)
deriving DecidableEq, Repr

/-- The mutable state of one `AsyncoreProtocol` instance.  `futures` is the
table of all futures ever handed to the engine, keyed by an abstract future
identifier; `closed` records whether `self.close()` has run (after which
asyncore delivers no further read/write/error events to the dispatcher). -/
structure PState : Type where
  alive : Bool
  closed : Bool
  nextRequest : Nat
  requests : List (Nat × Nat)
  pool : List Nat
  queue : List Cmd
  buffer : List BufEntry
  futures : List (Nat × FState)
deriving DecidableEq, Repr

/-- Embeds `AsyncoreProtocol.__init__`: alive, request counter at 1, empty
request table, pool, queue and buffer. -/
def initState : PState :=
  { alive := true, closed := false, nextRequest := 1, requests := [],
    pool := [], queue := [], buffer := [], futures := [] }

/-- Embeds `Future.set_result` / `Future.set_exception`: a future's state is set
once; a future that is no longer pending keeps its state. -/
def setFState (futs : List (Nat × FState)) (f : Nat) (st : FState) :
    List (Nat × FState) :=
  match alookup futs f with
  | some FState.pending => aset futs f st
  | _ => futs

/-- The body of `enqueue`'s successful path: `self.queue.put(...)`. -/
def enqueueOp (s : PState) (t : Nat) (c : Nat × Nat) (fr : List Nat)
    (fut : Option Nat) : PState :=
  { s with queue := s.queue ++ [Cmd.packet t c fr fut] }

/-- Embeds `AsyncoreProtocol.enqueue`: raises `'not connected'` when the engine is
no longer alive, otherwise appends the command to the outbound queue. -/
def enqueue (s : PState) (t : Nat) (c : Nat × Nat) (fr : List Nat)
    (fut : Option Nat) : Except Err PState :=
  if s.alive then Except.ok (enqueueOp s t c fr fut)
  else Except.error Err.notConnected

/-- Embeds `AsyncoreProtocol.drop`: puts the `None` sentinel on the queue. -/
def dropP (s : PState) : PState :=
  { s with queue := s.queue ++ [Cmd.sentinel] }

/-- Embeds `AsyncoreProtocol.startRequest`: prefer an ID from the pool, otherwise
take `nextRequest` and bump the counter; record the future under the ID. -/
def startRequest (s : PState) (f : Nat) : Nat × PState :=
  match s.pool with
  | [] =>
      (s.nextRequest,
       { s with nextRequest := s.nextRequest + 1,
                requests := aset s.requests s.nextRequest f })
  | n :: rest =>
      (n, { s with pool := rest, requests := aset s.requests n f })

/-- Embeds `for d in self.requests.values(): d.set_exception(reason)` — the
broadcast at the end of `terminate`. -/
def failAll (reqs : List (Nat × Nat)) (e : Err) (futs : List (Nat × FState)) :
    List (Nat × FState) :=
  reqs.foldl (fun fs p => setFState fs p.2 (FState.failed e)) futs

/-- The drain loop of `AsyncoreProtocol.flushCommands`, operating on the
commands drained from the queue.  The drop sentinel triggers
`self.terminate('Connection closed')` (inlined here: mark dead, close the
socket, keep draining, then fail every registered future) and makes the
flush report `False`; a raw string is appended to the write buffer; a
message (no future) is serialized with request tag 0; a request is
serialized with a freshly allocated positive request ID. -/
def runFlush : List Cmd → PState → Bool × PState
  | [], s => (true, s)
  | Cmd.sentinel :: rest, s =>
      (false,
       { (runFlush rest { s with alive := false, closed := true }).2 with
           futures := failAll
             (runFlush rest { s with alive := false, closed := true }).2.requests
             Err.connectionClosed
             (runFlush rest { s with alive := false, closed := true }).2.futures })
  | Cmd.raw d :: rest, s =>
      runFlush rest { s with buffer := s.buffer ++ [BufEntry.raw d] }
  | Cmd.packet t c fr none :: rest, s =>
      runFlush rest { s with buffer := s.buffer ++ [BufEntry.pkt t c 0 fr] }
  | Cmd.packet t c fr (some f) :: rest, s =>
      runFlush rest
        { (startRequest s f).2 with
            buffer := (startRequest s f).2.buffer
              ++ [BufEntry.pkt t c (Int.ofNat (startRequest s f).1) fr] }

/-- Embeds `AsyncoreProtocol.flushCommands`: drain the whole queue through
`runFlush`. -/
def flushCommands (s : PState) : Bool × PState :=
  runFlush s.queue { s with queue := [] }

/-- Embeds `AsyncoreProtocol.terminate`: mark dead, close the socket, flush the
queue, then fail every future held in the request table with `reason`. -/
def terminate (s : PState) (e : Err) : PState :=
  let s1 : PState := { s with alive := false, closed := true }
  let r := flushCommands s1
  { r.2 with futures := failAll r.2.requests e r.2.futures }

/-- Embeds `AsyncoreProtocol.handle_write`: flush the queue into the buffer; when
the flush did not terminate the connection, write to the socket and keep
the unwritten remainder (`sent` entries of the buffer are accepted by the
socket). -/
def handleWrite (s : PState) (sent : Nat) : PState :=
  let r := flushCommands s
  if r.1 then { r.2 with buffer := r.2.buffer.drop sent } else r.2

/-- The first error payload among a reply's records, in record order
(`errors = [r[1] for r in records if isinstance(r[1], Exception)]`). -/
def firstErr (records : List RRec) : Option Nat :=
  (records.filterMap (fun r => match r.2 with
    | Payload.exc e => some e
    | Payload.val _ => none)).head?

/-- Embeds `AsyncoreProtocol.handleResponse`: negate the reply's request tag; if
the resulting ID holds no pending entry, silently discard; otherwise remove
the entry, return the ID to the pool (a Python `set.add`), and fail the
future with the first error record or complete it with the record list. -/
def handleResponse (s : PState) (request : Int) (records : List RRec) : PState :=
  match s.requests.find? (fun p => (p.1 : Int) = -request) with
  | none => s
  | some (n, f) =>
      { s with
          requests := aerase s.requests n,
          pool := if s.pool.contains n then s.pool else n :: s.pool,
          futures := setFState s.futures f
            (match firstErr records with
             | some e => FState.failed (Err.recordErr e)
             | none => FState.completed records) }

/-- The future identifiers carried by request commands on a queue. -/
def qFuts (q : List Cmd) : List Nat :=
  q.filterMap (fun c => match c with
    | Cmd.packet _ _ _ (some f) => some f
    | _ => none)

/-- The future identifiers held in the pending-request table. -/
def reqFuts (s : PState) : List Nat :=
  s.requests.map Prod.snd

/-- The number of request commands (commands carrying a future) on a queue. -/
def reqCount (q : List Cmd) : Nat :=
  (qFuts q).length

/-! ### Future-table and queue lemmas -/

theorem alookup_setFState_ne (futs : List (Nat × FState)) (f : Nat) (st : FState)
    (g : Nat) (h : g ≠ f) : alookup (setFState futs f st) g = alookup futs g := by
  unfold setFState
  cases hf : alookup futs f with
  | none => rfl
  | some v =>
      cases v with
      | pending => exact alookup_aset_ne futs f g st h
      | completed r => rfl
      | failed e => rfl

theorem alookup_setFState_self (futs : List (Nat × FState)) (f : Nat) (st : FState) :
    alookup (setFState futs f st) f =
      if alookup futs f = some FState.pending then some st else alookup futs f := by
  unfold setFState
  cases hf : alookup futs f with
  | none => simpa using hf
  | some v =>
      cases v with
      | pending => simp [alookup_aset_self]
      | completed r => simpa using hf
      | failed e => simpa using hf

theorem failAll_preserves (reqs : List (Nat × Nat)) (e : Err)
    (futs : List (Nat × FState)) (g : Nat) (st : FState)
    (hst : st ≠ FState.pending) (h : alookup futs g = some st) :
    alookup (failAll reqs e futs) g = some st := by
  induction reqs generalizing futs with
  | nil => exact h
  | cons p t ih =>
      show alookup (failAll t e (setFState futs p.2 (FState.failed e))) g = some st
      apply ih
      by_cases hg : g = p.2
      · subst hg
        rw [alookup_setFState_self, if_neg (by rw [h]; exact fun hh => hst (Option.some.inj hh))]
        exact h
      · rw [alookup_setFState_ne futs p.2 (FState.failed e) g hg]
        exact h

theorem failAll_fails (reqs : List (Nat × Nat)) (e : Err) (futs : List (Nat × FState))
    (h : ∀ p ∈ reqs, alookup futs p.2 = some FState.pending ∨
                     alookup futs p.2 = some (FState.failed e)) :
    ∀ p ∈ reqs, alookup (failAll reqs e futs) p.2 = some (FState.failed e) := by
  induction reqs generalizing futs with
  | nil => intro p hp; simp at hp
  | cons q t ih =>
      intro p hp
      have hstep : alookup (setFState futs q.2 (FState.failed e)) q.2 =
          some (FState.failed e) := by
        rw [alookup_setFState_self]
        cases h q (List.mem_cons_self q t) with
        | inl hpend => rw [if_pos hpend]
        | inr hfail => rw [hfail]; simp
      have hrest : ∀ p' ∈ t,
          alookup (setFState futs q.2 (FState.failed e)) p'.2 = some FState.pending ∨
          alookup (setFState futs q.2 (FState.failed e)) p'.2 = some (FState.failed e) := by
        intro p' hp'
        by_cases hg : p'.2 = q.2
        · rw [hg]
          exact Or.inr hstep
        · rw [alookup_setFState_ne futs q.2 (FState.failed e) p'.2 hg]
          exact h p' (List.mem_cons_of_mem q hp')
      show alookup (failAll t e (setFState futs q.2 (FState.failed e))) p.2 =
          some (FState.failed e)
      rcases List.mem_cons.mp hp with hpq | hpt
      · subst hpq
        exact failAll_preserves t e _ p.2 (FState.failed e) (by simp) hstep
      · exact ih _ hrest p hpt

theorem failAll_futures_ne (reqs : List (Nat × Nat)) (e : Err)
    (futs : List (Nat × FState)) (g : Nat) (h : g ∉ reqs.map Prod.snd) :
    alookup (failAll reqs e futs) g = alookup futs g := by
  induction reqs generalizing futs with
  | nil => rfl
  | cons p t ih =>
      simp only [List.map_cons, List.mem_cons] at h
      push_neg at h
      show alookup (failAll t e (setFState futs p.2 (FState.failed e))) g = alookup futs g
      rw [ih _ h.2, alookup_setFState_ne futs p.2 (FState.failed e) g h.1]

theorem qFuts_append (a b : List Cmd) : qFuts (a ++ b) = qFuts a ++ qFuts b := by
  simp [qFuts, List.filterMap_append]

theorem qFuts_sentinel : qFuts [Cmd.sentinel] = [] := rfl

theorem qFuts_raw (d : List Nat) : qFuts [Cmd.raw d] = [] := rfl

theorem qFuts_msg (t : Nat) (c : Nat × Nat) (fr : List Nat) :
    qFuts [Cmd.packet t c fr none] = [] := rfl

theorem qFuts_req (t : Nat) (c : Nat × Nat) (fr : List Nat) (f : Nat) :
    qFuts [Cmd.packet t c fr (some f)] = [f] := rfl

/-! ### The engine invariants -/

/-- The identifier-level invariant on the pending-request table and the
free-ID pool: the two are disjoint, both are duplicate-free, every ID in
either is positive and below the counter, the counter counts exactly the
allocated IDs, and every allocated ID is in the table or the pool. -/
structure IdInv (s : PState) : Prop where
  disj : ∀ k ∈ akeys s.requests, k ∉ s.pool
  keyNd : (akeys s.requests).Nodup
  poolNd : s.pool.Nodup
  keyBound : ∀ k ∈ akeys s.requests, 1 ≤ k ∧ k < s.nextRequest
  poolBound : ∀ n ∈ s.pool, 1 ≤ n ∧ n < s.nextRequest
  countEq : s.nextRequest = s.requests.length + s.pool.length + 1
  complete : ∀ k, 1 ≤ k → k < s.nextRequest → k ∈ akeys s.requests ∨ k ∈ s.pool

/-- The future-level invariant while the engine is alive: every future held
in the request table or on the queue is still pending, and no future is
held twice. -/
structure FutInv (s : PState) : Prop where
  reqPending : ∀ f ∈ reqFuts s, alookup s.futures f = some FState.pending
  quePending : ∀ f ∈ qFuts s.queue, alookup s.futures f = some FState.pending
  futNd : (reqFuts s ++ qFuts s.queue).Nodup

/-- The full reachability invariant of the engine. -/
structure Inv (s : PState) : Prop where
  idInv : IdInv s
  futInv : s.alive = true → FutInv s
  deadClosed : s.alive = false → s.closed = true

theorem IdInv_init : IdInv initState := by
  refine ⟨?_, ?_, ?_, ?_, ?_, ?_, ?_⟩
  case refine_7 => intro k h1 h2; simp [initState] at h2; omega
  all_goals simp [initState, akeys]

theorem Inv_init : Inv initState := by
  refine ⟨IdInv_init, ?_, ?_⟩
  · intro _
    refine ⟨?_, ?_, ?_⟩ <;> simp [initState, reqFuts, qFuts]
  · intro h
    simp [initState] at h

theorem aset_of_not_mem {κ α : Type} [DecidableEq κ] {l : List (κ × α)} {k : κ} (h : k ∉ akeys l) (v : α) :
    aset l k v = (k, v) :: l := by
  rw [aset, aerase_of_not_mem h]

/-- What one `startRequest` call guarantees: a fresh positive ID is bound to
the future, the pool only shrinks, and every other component of the state
is untouched. -/
structure StartSpec (s : PState) (f : Nat) (n : Nat) (s' : PState) : Prop where
  idInv : IdInv s'
  pos : 1 ≤ n
  fresh : n ∉ akeys s.requests
  reqEq : s'.requests = aset s.requests n f
  poolSub : ∀ m ∈ s'.pool, m ∈ s.pool
  nextMono : s.nextRequest ≤ s'.nextRequest
  queueEq : s'.queue = s.queue
  bufEq : s'.buffer = s.buffer
  futEq : s'.futures = s.futures
  aliveEq : s'.alive = s.alive
  closedEq : s'.closed = s.closed
  lenEq : s'.requests.length = s.requests.length + 1
  sumBound : ∀ K, s.requests.length + s.pool.length ≤ K →
      s.requests.length + 1 ≤ K → s'.requests.length + s'.pool.length ≤ K

theorem startRequest_spec (s : PState) (f : Nat) (hid : IdInv s) :
    StartSpec s f (startRequest s f).1 (startRequest s f).2 := by
  cases hp : s.pool with
  | nil =>
      have h1 : 1 ≤ s.nextRequest := by have := hid.countEq; omega
      have hfresh : s.nextRequest ∉ akeys s.requests := by
        intro hmem
        exact absurd (hid.keyBound _ hmem).2 (lt_irrefl _)
      have hsr : startRequest s f =
          (s.nextRequest,
           { s with nextRequest := s.nextRequest + 1,
                    requests := aset s.requests s.nextRequest f }) := by
        unfold startRequest
        rw [hp]
      rw [hsr]
      dsimp only
      have hkeys : akeys (aset s.requests s.nextRequest f) =
          s.nextRequest :: akeys s.requests := by
        rw [aset_of_not_mem hfresh, akeys_cons]
      have hlen : (aset s.requests s.nextRequest f).length = s.requests.length + 1 := by
        rw [aset_of_not_mem hfresh]
        rfl
      have hplen : s.pool.length = 0 := by rw [hp]; rfl
      refine ⟨?_, h1, hfresh, rfl, ?_, ?_, rfl, rfl, rfl, rfl, rfl, hlen, ?_⟩
      · refine ⟨?_, ?_, ?_, ?_, ?_, ?_, ?_⟩
        · intro k hk
          rw [hp]
          exact List.not_mem_nil k
        · rw [hkeys]
          exact List.nodup_cons.mpr ⟨hfresh, hid.keyNd⟩
        · exact hid.poolNd
        · intro k hk
          show 1 ≤ k ∧ k < s.nextRequest + 1
          rw [hkeys, List.mem_cons] at hk
          cases hk with
          | inl h => rw [h]; omega
          | inr h =>
              have := hid.keyBound k h
              omega
        · intro m hm
          show 1 ≤ m ∧ m < s.nextRequest + 1
          have := hid.poolBound m hm
          omega
        · show s.nextRequest + 1 = (aset s.requests s.nextRequest f).length + s.pool.length + 1
          rw [hlen]
          have := hid.countEq
          omega
        · intro k hk1 hk2
          replace hk2 : k < s.nextRequest + 1 := hk2
          show k ∈ akeys (aset s.requests s.nextRequest f) ∨ k ∈ s.pool
          rw [hkeys, List.mem_cons]
          by_cases he : k = s.nextRequest
          · exact Or.inl (Or.inl he)
          · have hlt : k < s.nextRequest := by omega
            cases hid.complete k hk1 hlt with
            | inl h => exact Or.inl (Or.inr h)
            | inr h => exact Or.inr h
      · intro m hm
        exact hm
      · show s.nextRequest ≤ s.nextRequest + 1
        omega
      · intro K hK1 hK2
        show (aset s.requests s.nextRequest f).length + s.pool.length ≤ K
        rw [hlen]
        omega
  | cons m rest =>
      have hmem : m ∈ s.pool := by rw [hp]; exact List.mem_cons_self m rest
      have hmb := hid.poolBound m hmem
      have hfresh : m ∉ akeys s.requests := fun hk => hid.disj m hk hmem
      have hnd := hid.poolNd
      rw [hp] at hnd
      have hmrest : m ∉ rest := (List.nodup_cons.mp hnd).1
      have hrestnd : rest.Nodup := (List.nodup_cons.mp hnd).2
      have hsr : startRequest s f =
          (m, { s with pool := rest, requests := aset s.requests m f }) := by
        unfold startRequest
        rw [hp]
      rw [hsr]
      dsimp only
      have hkeys : akeys (aset s.requests m f) = m :: akeys s.requests := by
        rw [aset_of_not_mem hfresh, akeys_cons]
      have hlen : (aset s.requests m f).length = s.requests.length + 1 := by
        rw [aset_of_not_mem hfresh]
        rfl
      have hrest_sub : ∀ a ∈ rest, a ∈ s.pool := by
        intro a ha
        rw [hp]
        exact List.mem_cons_of_mem m ha
      refine ⟨?_, hmb.1, hfresh, rfl, ?_, ?_, rfl, rfl, rfl, rfl, rfl, hlen, ?_⟩
      · refine ⟨?_, ?_, ?_, ?_, ?_, ?_, ?_⟩
        · intro k hk
          rw [hkeys, List.mem_cons] at hk
          cases hk with
          | inl h => rw [h]; exact hmrest
          | inr h => exact fun hr => hid.disj k h (hrest_sub k hr)
        · rw [hkeys]
          exact List.nodup_cons.mpr ⟨hfresh, hid.keyNd⟩
        · exact hrestnd
        · intro k hk
          rw [hkeys, List.mem_cons] at hk
          cases hk with
          | inl h => rw [h]; exact hmb
          | inr h => exact hid.keyBound k h
        · intro a ha
          exact hid.poolBound a (hrest_sub a ha)
        · show s.nextRequest = (aset s.requests m f).length + rest.length + 1
          rw [hlen]
          have h1 := hid.countEq
          have h2 : s.pool.length = rest.length + 1 := by rw [hp]; rfl
          omega
        · intro k hk1 hk2
          show k ∈ akeys (aset s.requests m f) ∨ k ∈ rest
          rw [hkeys, List.mem_cons]
          cases hid.complete k hk1 hk2 with
          | inl h => exact Or.inl (Or.inr h)
          | inr h =>
              rw [hp, List.mem_cons] at h
              cases h with
              | inl h => exact Or.inl (Or.inl h)
              | inr h => exact Or.inr h
      · exact hrest_sub
      · show s.nextRequest ≤ s.nextRequest
        omega
      · intro K hK1 hK2
        show (aset s.requests m f).length + rest.length ≤ K
        rw [hlen]
        have h2 : s.pool.length = rest.length + 1 := by rw [hp]; rfl
        omega

theorem qFuts_cons_sentinel (rest : List Cmd) :
    qFuts (Cmd.sentinel :: rest) = qFuts rest := rfl

theorem qFuts_cons_raw (d : List Nat) (rest : List Cmd) :
    qFuts (Cmd.raw d :: rest) = qFuts rest := rfl

theorem qFuts_cons_msg (t : Nat) (c : Nat × Nat) (fr : List Nat) (rest : List Cmd) :
    qFuts (Cmd.packet t c fr none :: rest) = qFuts rest := rfl

theorem qFuts_cons_req (t : Nat) (c : Nat × Nat) (fr : List Nat) (f : Nat)
    (rest : List Cmd) :
    qFuts (Cmd.packet t c fr (some f) :: rest) = f :: qFuts rest := rfl

/-- The predicate `IdInv` only concerns the request table, the pool and the counter, so
it transports along any state change leaving those three untouched. -/
theorem IdInv_congr {s s' : PState} (h : IdInv s) (hr : s'.requests = s.requests)
    (hp : s'.pool = s.pool) (hn : s'.nextRequest = s.nextRequest) : IdInv s' := by
  refine ⟨?_, ?_, ?_, ?_, ?_, ?_, ?_⟩ <;> simp only [hr, hp, hn]
  exacts [h.disj, h.keyNd, h.poolNd, h.keyBound, h.poolBound, h.countEq, h.complete]

/-- What one full drain of the outbound queue guarantees, relating the
state before `runFlush` to the state and flag it produces. -/
structure FlushSpec (q : List Cmd) (s s' : PState) (b : Bool) : Prop where
  idInv : IdInv s'
  queueEq : s'.queue = s.queue
  nextMono : s.nextRequest ≤ s'.nextRequest
  poolSub : ∀ n ∈ s'.pool, n ∈ s.pool
  reqPreserve : ∀ k ∈ akeys s.requests, alookup s'.requests k = alookup s.requests k
  reqFutsEq : reqFuts s' = (qFuts q).reverse ++ reqFuts s
  registered : ∀ f ∈ qFuts q, ∃ k, k ∉ akeys s.requests ∧ alookup s'.requests k = some f
  sumBound : ∀ K, s.requests.length + s.pool.length ≤ K →
      s.requests.length + reqCount q ≤ K → s'.requests.length + s'.pool.length ≤ K
  noSentinel : Cmd.sentinel ∉ q →
      b = true ∧ s'.futures = s.futures ∧ s'.alive = s.alive ∧ s'.closed = s.closed
  withSentinel : Cmd.sentinel ∈ q →
      b = false ∧ s'.alive = false ∧ s'.closed = true ∧
      ∀ p ∈ s'.requests, alookup s'.futures p.2 = some (FState.failed Err.connectionClosed)

theorem runFlush_spec (q : List Cmd) (s : PState)
    (hid : IdInv s)
    (hreq : ∀ f ∈ reqFuts s, alookup s.futures f = some FState.pending)
    (hq : ∀ f ∈ qFuts q, alookup s.futures f = some FState.pending)
    (hnd : (reqFuts s ++ qFuts q).Nodup) :
    FlushSpec q s (runFlush q s).2 (runFlush q s).1 := by
  induction q generalizing s with
  | nil =>
      have e0 : runFlush [] s = (true, s) := rfl
      rw [e0]
      refine ⟨hid, rfl, le_refl _, fun n hn => hn, fun k hk => rfl, ?_, ?_, ?_, ?_, ?_⟩
      · show reqFuts s = (qFuts []).reverse ++ reqFuts s
        rfl
      · intro f hf
        simp [qFuts] at hf
      · intro K h1 h2
        exact h1
      · intro _
        exact ⟨rfl, rfl, rfl, rfl⟩
      · intro h
        simp at h
  | cons c rest ih =>
      cases c with
      | sentinel =>
          have e : runFlush (Cmd.sentinel :: rest) s =
              (false,
               { (runFlush rest { s with alive := false, closed := true }).2 with
                   futures := failAll
                     (runFlush rest { s with alive := false, closed := true }).2.requests
                     Err.connectionClosed
                     (runFlush rest { s with alive := false, closed := true }).2.futures }) :=
            rfl
          rw [e]
          have hfl := ih { s with alive := false, closed := true }
            (IdInv_congr hid rfl rfl rfl) (fun g hg => hreq g hg) (fun g hg => hq g hg) hnd
          set r2 := (runFlush rest { s with alive := false, closed := true }).2 with hr2
          refine ⟨IdInv_congr hfl.idInv rfl rfl rfl, hfl.queueEq, hfl.nextMono,
                  hfl.poolSub, hfl.reqPreserve,
                  ?_, hfl.registered, hfl.sumBound, ?_, ?_⟩
          · rw [qFuts_cons_sentinel]
            exact hfl.reqFutsEq
          · intro h
            exact absurd (List.mem_cons_self _ _) h
          · intro _
            refine ⟨rfl, ?_, ?_, ?_⟩
            · show r2.alive = false
              by_cases hs : Cmd.sentinel ∈ rest
              · exact (hfl.withSentinel hs).2.1
              · exact (hfl.noSentinel hs).2.2.1
            · show r2.closed = true
              by_cases hs : Cmd.sentinel ∈ rest
              · exact (hfl.withSentinel hs).2.2.1
              · exact (hfl.noSentinel hs).2.2.2
            · intro p hp
              show alookup (failAll r2.requests Err.connectionClosed r2.futures) p.2 =
                  some (FState.failed Err.connectionClosed)
              by_cases hs : Cmd.sentinel ∈ rest
              · exact failAll_preserves r2.requests Err.connectionClosed r2.futures p.2
                  (FState.failed Err.connectionClosed) (by simp)
                  ((hfl.withSentinel hs).2.2.2 p hp)
              · have hfeq : r2.futures = s.futures := (hfl.noSentinel hs).2.1
                have hpend : ∀ p' ∈ r2.requests,
                    alookup r2.futures p'.2 = some FState.pending ∨
                    alookup r2.futures p'.2 = some (FState.failed Err.connectionClosed) := by
                  intro p' hp'
                  left
                  have hm : p'.2 ∈ reqFuts r2 := List.mem_map_of_mem Prod.snd hp'
                  rw [hfl.reqFutsEq] at hm
                  rw [hfeq]
                  rcases List.mem_append.mp hm with hm | hm
                  · exact hq p'.2 (List.mem_reverse.mp hm)
                  · exact hreq p'.2 hm
                exact failAll_fails r2.requests Err.connectionClosed r2.futures hpend p hp
      | raw d =>
          have e : runFlush (Cmd.raw d :: rest) s =
              runFlush rest { s with buffer := s.buffer ++ [BufEntry.raw d] } := rfl
          rw [e]
          have hfl := ih { s with buffer := s.buffer ++ [BufEntry.raw d] }
            (IdInv_congr hid rfl rfl rfl) (fun g hg => hreq g hg) (fun g hg => hq g hg) hnd
          refine ⟨hfl.idInv, hfl.queueEq, hfl.nextMono, hfl.poolSub, hfl.reqPreserve,
                  ?_, hfl.registered, hfl.sumBound, ?_, ?_⟩
          · rw [qFuts_cons_raw]
            exact hfl.reqFutsEq
          · intro h
            have hrest : Cmd.sentinel ∉ rest := fun hh => h (List.mem_cons_of_mem _ hh)
            exact hfl.noSentinel hrest
          · intro h
            have hrest : Cmd.sentinel ∈ rest := by
              rcases List.mem_cons.mp h with hh | hh
              · exact absurd hh (by simp)
              · exact hh
            exact hfl.withSentinel hrest
      | packet t ctx fr fut =>
          cases fut with
          | none =>
              have e : runFlush (Cmd.packet t ctx fr none :: rest) s =
                  runFlush rest { s with buffer := s.buffer ++ [BufEntry.pkt t ctx 0 fr] } :=
                rfl
              rw [e]
              have hfl := ih { s with buffer := s.buffer ++ [BufEntry.pkt t ctx 0 fr] }
                (IdInv_congr hid rfl rfl rfl) (fun g hg => hreq g hg)
                (fun g hg => hq g hg) hnd
              refine ⟨hfl.idInv, hfl.queueEq, hfl.nextMono, hfl.poolSub, hfl.reqPreserve,
                      ?_, hfl.registered, hfl.sumBound, ?_, ?_⟩
              · rw [qFuts_cons_msg]
                exact hfl.reqFutsEq
              · intro h
                have hrest : Cmd.sentinel ∉ rest := fun hh => h (List.mem_cons_of_mem _ hh)
                exact hfl.noSentinel hrest
              · intro h
                have hrest : Cmd.sentinel ∈ rest := by
                  rcases List.mem_cons.mp h with hh | hh
                  · exact absurd hh (by simp)
                  · exact hh
                exact hfl.withSentinel hrest
          | some f =>
              have hss := startRequest_spec s f hid
              set n := (startRequest s f).1 with hn
              set s10 := (startRequest s f).2 with hs10
              have e : runFlush (Cmd.packet t ctx fr (some f) :: rest) s =
                  runFlush rest
                    { s10 with buffer := s10.buffer ++ [BufEntry.pkt t ctx (Int.ofNat n) fr] } :=
                rfl
              rw [e]
              set s1 : PState :=
                { s10 with buffer := s10.buffer ++ [BufEntry.pkt t ctx (Int.ofNat n) fr] }
                with hs1
              have hid1 : IdInv s1 := IdInv_congr hss.idInv rfl rfl rfl
              have hfut1 : s1.futures = s.futures := hss.futEq
              have hreqEq : s1.requests = aset s.requests n f := hss.reqEq
              have hrf1 : reqFuts s1 = f :: reqFuts s := by
                show s1.requests.map Prod.snd = f :: s.requests.map Prod.snd
                rw [hreqEq, aset_of_not_mem hss.fresh]
                rfl
              have hfmem : f ∈ qFuts (Cmd.packet t ctx fr (some f) :: rest) := by
                rw [qFuts_cons_req]
                exact List.mem_cons_self f _
              have hreq1 : ∀ g ∈ reqFuts s1, alookup s1.futures g = some FState.pending := by
                intro g hg
                rw [hrf1, List.mem_cons] at hg
                rw [hfut1]
                cases hg with
                | inl h => rw [h]; exact hq f hfmem
                | inr h => exact hreq g h
              have hq1 : ∀ g ∈ qFuts rest, alookup s1.futures g = some FState.pending := by
                intro g hg
                rw [hfut1]
                apply hq
                rw [qFuts_cons_req]
                exact List.mem_cons_of_mem f hg
              have hnd1 : (reqFuts s1 ++ qFuts rest).Nodup := by
                rw [hrf1]
                have hperm : List.Perm
                    (reqFuts s ++ qFuts (Cmd.packet t ctx fr (some f) :: rest))
                    ((f :: reqFuts s) ++ qFuts rest) := by
                  rw [qFuts_cons_req]
                  exact List.perm_middle
                exact hperm.nodup hnd
              have hfl := ih s1 hid1 hreq1 hq1 hnd1
              have hkeys1 : akeys s1.requests = n :: akeys s.requests := by
                rw [hreqEq, aset_of_not_mem hss.fresh, akeys_cons]
              refine ⟨hfl.idInv, ?_, ?_, ?_, ?_, ?_, ?_, ?_, ?_, ?_⟩
              · rw [hfl.queueEq]
                exact hss.queueEq
              · exact le_trans hss.nextMono hfl.nextMono
              · intro m hm
                exact hss.poolSub m (hfl.poolSub m hm)
              · intro k hk
                have hk1 : k ∈ akeys s1.requests := by
                  rw [hkeys1]
                  exact List.mem_cons_of_mem n hk
                have hne : k ≠ n := fun hh => hss.fresh (hh ▸ hk)
                rw [hfl.reqPreserve k hk1, hreqEq, alookup_aset_ne _ _ _ _ hne]
              · rw [hfl.reqFutsEq, hrf1, qFuts_cons_req]
                simp [List.append_assoc]
              · intro g hg
                rw [qFuts_cons_req, List.mem_cons] at hg
                cases hg with
                | inl h =>
                    refine ⟨n, hss.fresh, ?_⟩
                    have hmem1 : n ∈ akeys s1.requests := by
                      rw [hkeys1]
                      exact List.mem_cons_self n _
                    rw [hfl.reqPreserve n hmem1, hreqEq, alookup_aset_self, h]
                | inr h =>
                    obtain ⟨k, hk1, hk2⟩ := hfl.registered g h
                    refine ⟨k, ?_, hk2⟩
                    intro hk
                    apply hk1
                    rw [hkeys1]
                    exact List.mem_cons_of_mem n hk
              · intro K h1 h2
                have hrc : reqCount (Cmd.packet t ctx fr (some f) :: rest) =
                    reqCount rest + 1 := by
                  show (qFuts (Cmd.packet t ctx fr (some f) :: rest)).length =
                      (qFuts rest).length + 1
                  rw [qFuts_cons_req]
                  rfl
                rw [hrc] at h2
                apply hfl.sumBound K
                · exact hss.sumBound K h1 (by omega)
                · have hlen1 : s1.requests.length = s10.requests.length := rfl
                  have := hss.lenEq
                  omega
              · intro h
                have hrest : Cmd.sentinel ∉ rest := fun hh => h (List.mem_cons_of_mem _ hh)
                obtain ⟨hb, hf2, ha, hc2⟩ := hfl.noSentinel hrest
                refine ⟨hb, ?_, ?_, ?_⟩
                · rw [hf2]
                  exact hfut1
                · rw [ha]
                  exact hss.aliveEq
                · rw [hc2]
                  exact hss.closedEq
              · intro h
                have hrest : Cmd.sentinel ∈ rest := by
                  rcases List.mem_cons.mp h with hh | hh
                  · exact absurd hh (by simp)
                  · exact hh
                exact hfl.withSentinel hrest

/-! ### Termination -/

/-- What `terminate` guarantees: dead and closed state, empty queue, every
queued request registered in the table, existing entries preserved, and
every held future failed with one uniform cause (the stated reason, or
`'Connection closed'` when the drain met the drop sentinel first). -/
structure TermSpec (s : PState) (e : Err) (s' : PState) : Prop where
  idInv : IdInv s'
  aliveF : s'.alive = false
  closedT : s'.closed = true
  queueNil : s'.queue = []
  failedUniform : ∃ c, (Cmd.sentinel ∈ s.queue → c = Err.connectionClosed) ∧
      (Cmd.sentinel ∉ s.queue → c = e) ∧
      ∀ p ∈ s'.requests, alookup s'.futures p.2 = some (FState.failed c)
  reqPreserve : ∀ k ∈ akeys s.requests, alookup s'.requests k = alookup s.requests k
  poolSub : ∀ n ∈ s'.pool, n ∈ s.pool
  registered : ∀ f ∈ qFuts s.queue, ∃ k, alookup s'.requests k = some f
  sumBound : ∀ K, s.requests.length + s.pool.length ≤ K →
      s.requests.length + reqCount s.queue ≤ K →
      s'.requests.length + s'.pool.length ≤ K

theorem terminate_spec (s : PState) (e : Err)
    (hid : IdInv s)
    (hreq : ∀ f ∈ reqFuts s, alookup s.futures f = some FState.pending)
    (hq : ∀ f ∈ qFuts s.queue, alookup s.futures f = some FState.pending)
    (hnd : (reqFuts s ++ qFuts s.queue).Nodup) :
    TermSpec s e (terminate s e) := by
  have e1 : terminate s e =
      { (runFlush s.queue { s with alive := false, closed := true, queue := [] }).2 with
          futures := failAll
            (runFlush s.queue { s with alive := false, closed := true, queue := [] }).2.requests
            e
            (runFlush s.queue
              { s with alive := false, closed := true, queue := [] }).2.futures } := rfl
  rw [e1]
  have hfl := runFlush_spec s.queue { s with alive := false, closed := true, queue := [] }
    (IdInv_congr hid rfl rfl rfl) (fun g hg => hreq g hg) (fun g hg => hq g hg) hnd
  set r2 := (runFlush s.queue { s with alive := false, closed := true, queue := [] }).2
    with hr2
  have haF : r2.alive = false := by
    by_cases hs : Cmd.sentinel ∈ s.queue
    · exact (hfl.withSentinel hs).2.1
    · exact (hfl.noSentinel hs).2.2.1
  have hcT : r2.closed = true := by
    by_cases hs : Cmd.sentinel ∈ s.queue
    · exact (hfl.withSentinel hs).2.2.1
    · exact (hfl.noSentinel hs).2.2.2
  refine ⟨IdInv_congr hfl.idInv rfl rfl rfl, haF, hcT, hfl.queueEq, ?_, hfl.reqPreserve,
          fun n hn => hfl.poolSub n hn, ?_, ?_⟩
  · by_cases hs : Cmd.sentinel ∈ s.queue
    · refine ⟨Err.connectionClosed, fun _ => rfl, fun hn => absurd hs hn, ?_⟩
      intro p hp
      show alookup (failAll r2.requests e r2.futures) p.2 =
          some (FState.failed Err.connectionClosed)
      exact failAll_preserves r2.requests e r2.futures p.2
        (FState.failed Err.connectionClosed) (by simp)
        ((hfl.withSentinel hs).2.2.2 p hp)
    · refine ⟨e, fun hn => absurd hn hs, fun _ => rfl, ?_⟩
      intro p hp
      show alookup (failAll r2.requests e r2.futures) p.2 = some (FState.failed e)
      have hfeq : r2.futures = s.futures := (hfl.noSentinel hs).2.1
      have hpend : ∀ p' ∈ r2.requests,
          alookup r2.futures p'.2 = some FState.pending ∨
          alookup r2.futures p'.2 = some (FState.failed e) := by
        intro p' hp'
        left
        have hm : p'.2 ∈ reqFuts r2 := List.mem_map_of_mem Prod.snd hp'
        rw [hfl.reqFutsEq] at hm
        rw [hfeq]
        rcases List.mem_append.mp hm with hm | hm
        · exact hq p'.2 (List.mem_reverse.mp hm)
        · exact hreq p'.2 hm
      exact failAll_fails r2.requests e r2.futures hpend p hp
  · intro f hf
    obtain ⟨k, _, hk⟩ := hfl.registered f hf
    exact ⟨k, hk⟩
  · intro K h1 h2
    exact hfl.sumBound K h1 h2

/-! ### The transition system of the engine

One dedicated I/O thread owns the socket; arbitrary caller threads only
call `enqueue` (via the facade, which first creates a fresh pending future
for a request) and `drop`.  The raw-string hack puts a string directly on
the queue.  After `self.close()` asyncore delivers no further read, write,
close or error events to the dispatcher, so those steps require an open
socket. -/
inductive Step : PState → PState → Prop
  | sendMessage (s : PState) (t : Nat) (c : Nat × Nat) (fr : List Nat)
      (ha : s.alive = true) :
      Step s (enqueueOp s t c fr none)
  | sendRequest (s : PState) (t : Nat) (c : Nat × Nat) (fr : List Nat) (f : Nat)
      (ha : s.alive = true) (hf : alookup s.futures f = none) :
      Step s { enqueueOp s t c fr (some f) with
                 futures := aset s.futures f FState.pending }
  | putRaw (s : PState) (d : List Nat) :
      Step s { s with queue := s.queue ++ [Cmd.raw d] }
  | dropStep (s : PState) :
      Step s (dropP s)
  | writeStep (s : PState) (sent : Nat) (hc : s.closed = false) :
      Step s (handleWrite s sent)
  | responseStep (s : PState) (request : Int) (records : List RRec)
      (hc : s.closed = false) :
      Step s (handleResponse s request records)
  | errorStep (s : PState) (hc : s.closed = false) :
      Step s (terminate s Err.protocolError)
  | closeStep (s : PState) (hc : s.closed = false) :
      Step s (terminate s Err.connectionLost)

/-- The states of one engine reachable from its construction. -/
inductive Reachable : PState → Prop
  | init : Reachable initState
  | step {s s' : PState} : Reachable s → Step s s' → Reachable s'

/-! ### Inbound demultiplexing -/

theorem alookup_of_mem_nodup {κ α : Type} [DecidableEq κ] {l : List (κ × α)} {k : κ} {v : α}
    (hnd : (akeys l).Nodup) (h : (k, v) ∈ l) : alookup l k = some v := by
  induction l with
  | nil => simp at h
  | cons p t ih =>
      rw [akeys_cons, List.nodup_cons] at hnd
      rw [alookup_cons]
      rcases List.mem_cons.mp h with hh | hh
      · rw [← hh]
        simp
      · have hnk : p.1 ≠ k := by
          intro he
          apply hnd.1
          rw [he]
          exact List.mem_map_of_mem Prod.fst hh
        rw [if_neg hnk]
        exact ih hnd.2 hh

/-- Running `handleResponse` on a reply whose negated tag matches no pending entry:
the packet is silently discarded, the state is untouched. -/
theorem handleResponse_miss (s : PState) (request : Int) (records : List RRec)
    (h : s.requests.find? (fun p => decide ((p.1 : Int) = -request)) = none) :
    handleResponse s request records = s := by
  unfold handleResponse
  rw [h]

/-- Running `handleResponse` on a reply matching pending entry `(n, f)`: the entry
is removed, `n` returns to the pool, `f` is failed with the first error
record or completed with the record list, and every other pending entry
and its future are untouched. -/
theorem handleResponse_found (s : PState) (request : Int) (records : List RRec)
    (n f : Nat) (hid : IdInv s) (hfi : FutInv s)
    (hfind : s.requests.find? (fun p => decide ((p.1 : Int) = -request)) = some (n, f)) :
    (handleResponse s request records).requests = aerase s.requests n ∧
    (handleResponse s request records).pool = n :: s.pool ∧
    (handleResponse s request records).queue = s.queue ∧
    (handleResponse s request records).buffer = s.buffer ∧
    (handleResponse s request records).alive = s.alive ∧
    (handleResponse s request records).closed = s.closed ∧
    alookup s.requests n = some f ∧
    (n : Int) = -request ∧
    alookup (handleResponse s request records).futures f =
      some (match firstErr records with
            | some e2 => FState.failed (Err.recordErr e2)
            | none => FState.completed records) ∧
    (∀ p ∈ s.requests, p.1 ≠ n →
        alookup (handleResponse s request records).requests p.1 = some p.2 ∧
        alookup (handleResponse s request records).futures p.2 = some FState.pending) ∧
    IdInv (handleResponse s request records) ∧
    FutInv (handleResponse s request records) := by
  have hmem : (n, f) ∈ s.requests := List.mem_of_find?_eq_some hfind
  have hkey : n ∈ akeys s.requests := List.mem_map_of_mem Prod.fst hmem
  have hnp : n ∉ s.pool := hid.disj n hkey
  have htag : (n : Int) = -request := by
    have := List.find?_some hfind
    simpa using this
  have hcontains : s.pool.contains n = false := by
    rw [show s.pool.contains n = decide (n ∈ s.pool) from List.elem_eq_mem n s.pool]
    simp [hnp]
  have hfmem : f ∈ reqFuts s := List.mem_map_of_mem Prod.snd hmem
  have hfpend : alookup s.futures f = some FState.pending := hfi.reqPending f hfmem
  have hndsplit := List.nodup_append.mp hfi.futNd
  have hreqnd : (reqFuts s).Nodup := hndsplit.1
  have hdisj : ∀ a, a ∈ reqFuts s → a ∉ qFuts s.queue := fun a ha hb => hndsplit.2.2 ha hb
  have e1 : handleResponse s request records =
      { s with
          requests := aerase s.requests n,
          pool := n :: s.pool,
          futures := setFState s.futures f
            (match firstErr records with
             | some e2 => FState.failed (Err.recordErr e2)
             | none => FState.completed records) } := by
    simp only [handleResponse, hfind, hcontains]
    simp
  rw [e1]
  dsimp only
  have hsndinj : ∀ p ∈ s.requests, p.2 = f → p = (n, f) := by
    intro p hp he
    exact List.inj_on_of_nodup_map hreqnd hp hmem he
  have hothers : ∀ p ∈ s.requests, p.1 ≠ n →
      alookup (aerase s.requests n) p.1 = some p.2 ∧
      alookup (setFState s.futures f
        (match firstErr records with
         | some e2 => FState.failed (Err.recordErr e2)
         | none => FState.completed records)) p.2 = some FState.pending := by
    intro p hp hne
    constructor
    · rw [alookup_aerase_ne s.requests n p.1 hne]
      exact alookup_of_mem_nodup hid.keyNd hp
    · have hpf : p.2 ≠ f := by
        intro he
        have := hsndinj p hp he
        rw [this] at hne
        exact hne rfl
      rw [alookup_setFState_ne s.futures f _ p.2 hpf]
      exact hfi.reqPending p.2 (List.mem_map_of_mem Prod.snd hp)
  refine ⟨rfl, rfl, rfl, rfl, rfl, rfl, alookup_of_mem_nodup hid.keyNd hmem, htag, ?_, hothers,
          ?_, ?_⟩
  · rw [alookup_setFState_self, if_pos hfpend]
  · -- the identifier invariant after removing `n` and pooling it
    refine ⟨?_, ?_, ?_, ?_, ?_, ?_, ?_⟩
    · intro k hk
      have hk' : k ∈ akeys s.requests := akeys_aerase_subset s.requests n k hk
      have hkn : k ≠ n := by
        intro he
        rw [he] at hk
        exact not_mem_akeys_aerase_self s.requests n hk
      intro hin
      rcases List.mem_cons.mp hin with hh | hh
      · exact hkn hh
      · exact hid.disj k hk' hh
    · exact aerase_nodup hid.keyNd n
    · exact List.nodup_cons.mpr ⟨hnp, hid.poolNd⟩
    · intro k hk
      exact hid.keyBound k (akeys_aerase_subset s.requests n k hk)
    · intro m hm
      rcases List.mem_cons.mp hm with hh | hh
      · rw [hh]
        exact hid.keyBound n hkey
      · exact hid.poolBound m hh
    · have h1 := aerase_length_of_mem hid.keyNd hkey
      have h2 := hid.countEq
      simp only [List.length_cons]
      omega
    · intro k hk1 hk2
      rcases hid.complete k hk1 hk2 with hh | hh
      · by_cases he : k = n
        · right
          rw [he]
          exact List.mem_cons_self n s.pool
        · left
          exact mem_akeys_aerase hh he
      · right
        exact List.mem_cons_of_mem n hh
  · -- the future invariant is preserved
    refine ⟨?_, ?_, ?_⟩
    · intro g hg
      obtain ⟨p, hp, hpg⟩ := List.mem_map.mp hg
      have hpreq : p ∈ s.requests := List.mem_of_mem_filter hp
      have hpne : p.1 ≠ n := by
        have := List.of_mem_filter hp
        simpa using this
      rw [← hpg]
      exact (hothers p hpreq hpne).2
    · intro g hg
      have hgf : g ≠ f := by
        intro he
        exact hdisj f hfmem (he ▸ hg)
      rw [alookup_setFState_ne s.futures f _ g hgf]
      exact hfi.quePending g hg
    · have hsub : List.Sublist ((aerase s.requests n).map Prod.snd ++ qFuts s.queue)
          (s.requests.map Prod.snd ++ qFuts s.queue) :=
        List.Sublist.append_right ((List.filter_sublist s.requests).map Prod.snd) _
      exact List.Nodup.sublist hsub hfi.futNd

/-! ### Invariant preservation -/

theorem Inv_queue_append_nofut (s : PState) (cmd : Cmd) (hcf : qFuts [cmd] = [])
    (hinv : Inv s) : Inv { s with queue := s.queue ++ [cmd] } := by
  refine ⟨IdInv_congr hinv.idInv rfl rfl rfl, ?_, hinv.deadClosed⟩
  intro ha
  have hfi := hinv.futInv ha
  have hqe : qFuts (s.queue ++ [cmd]) = qFuts s.queue := by
    rw [qFuts_append, hcf, List.append_nil]
  refine ⟨fun g hg => hfi.reqPending g hg, ?_, ?_⟩
  · intro g hg
    have hg' : g ∈ qFuts (s.queue ++ [cmd]) := hg
    rw [hqe] at hg'
    exact hfi.quePending g hg'
  · show (reqFuts s ++ qFuts (s.queue ++ [cmd])).Nodup
    rw [hqe]
    exact hfi.futNd

theorem Inv_buffer (s : PState) (b2 : List BufEntry) (h : Inv s) :
    Inv { s with buffer := b2 } := by
  refine ⟨IdInv_congr h.idInv rfl rfl rfl, ?_, h.deadClosed⟩
  intro ha
  have hfi := h.futInv ha
  exact ⟨fun g hg => hfi.reqPending g hg, fun g hg => hfi.quePending g hg, hfi.futNd⟩

theorem alive_of_open {s : PState} (hinv : Inv s) (hc : s.closed = false) :
    s.alive = true := by
  cases hal : s.alive
  · have := hinv.deadClosed hal
    rw [this] at hc
    exact Bool.noConfusion hc
  · rfl

theorem Step_inv {s s' : PState} (hinv : Inv s) (hstep : Step s s') : Inv s' := by
  cases hstep with
  | sendMessage t c fr ha =>
      exact Inv_queue_append_nofut s (Cmd.packet t c fr none) rfl hinv
  | putRaw d =>
      exact Inv_queue_append_nofut s (Cmd.raw d) rfl hinv
  | dropStep =>
      exact Inv_queue_append_nofut s Cmd.sentinel rfl hinv
  | sendRequest t c fr f ha hf =>
      have hfi := hinv.futInv ha
      have hqe : qFuts (s.queue ++ [Cmd.packet t c fr (some f)]) = qFuts s.queue ++ [f] := by
        rw [qFuts_append, qFuts_req]
      have hfresh_req : ∀ g ∈ reqFuts s, g ≠ f := by
        intro g hg he
        have hp := hfi.reqPending g hg
        rw [he, hf] at hp
        exact Option.noConfusion hp
      have hfresh_que : ∀ g ∈ qFuts s.queue, g ≠ f := by
        intro g hg he
        have hp := hfi.quePending g hg
        rw [he, hf] at hp
        exact Option.noConfusion hp
      refine ⟨IdInv_congr hinv.idInv rfl rfl rfl, ?_, ?_⟩
      · intro _
        refine ⟨?_, ?_, ?_⟩
        · intro g hg
          have hg' : g ∈ reqFuts s := hg
          show alookup (aset s.futures f FState.pending) g = some FState.pending
          rw [alookup_aset_ne s.futures f g FState.pending (hfresh_req g hg')]
          exact hfi.reqPending g hg'
        · intro g hg
          have hg' : g ∈ qFuts (s.queue ++ [Cmd.packet t c fr (some f)]) := hg
          rw [hqe, List.mem_append] at hg'
          show alookup (aset s.futures f FState.pending) g = some FState.pending
          rcases hg' with hg' | hg'
          · rw [alookup_aset_ne s.futures f g FState.pending (hfresh_que g hg')]
            exact hfi.quePending g hg'
          · rw [List.mem_singleton] at hg'
            rw [hg']
            exact alookup_aset_self s.futures f FState.pending
        · show (reqFuts s ++ qFuts (s.queue ++ [Cmd.packet t c fr (some f)])).Nodup
          rw [hqe, ← List.append_assoc, List.nodup_append]
          refine ⟨hfi.futNd, List.nodup_singleton f, ?_⟩
          intro a ha1 ha2
          rw [List.mem_singleton] at ha2
          rcases List.mem_append.mp ha1 with h1 | h1
          · exact hfresh_req a h1 ha2
          · exact hfresh_que a h1 ha2
      · intro h
        have h' : s.alive = false := h
        rw [ha] at h'
        exact Bool.noConfusion h'
  | writeStep sent hc =>
      have ha := alive_of_open hinv hc
      have hfi := hinv.futInv ha
      have hfl := runFlush_spec s.queue { s with queue := [] }
        (IdInv_congr hinv.idInv rfl rfl rfl) (fun g hg => hfi.reqPending g hg)
        (fun g hg => hfi.quePending g hg) hfi.futNd
      set r := runFlush s.queue { s with queue := [] } with hr
      have hInv2 : Inv r.2 := by
        refine ⟨hfl.idInv, ?_, ?_⟩
        · intro ha2
          by_cases hs : Cmd.sentinel ∈ s.queue
          · rw [(hfl.withSentinel hs).2.1] at ha2
            exact Bool.noConfusion ha2
          · obtain ⟨_, hfut, _, _⟩ := hfl.noSentinel hs
            refine ⟨?_, ?_, ?_⟩
            · intro g hg
              rw [hfut]
              have hg' : g ∈ reqFuts r.2 := hg
              rw [hfl.reqFutsEq] at hg'
              rcases List.mem_append.mp hg' with h1 | h1
              · exact hfi.quePending g (List.mem_reverse.mp h1)
              · exact hfi.reqPending g h1
            · intro g hg
              have hg' : g ∈ qFuts r.2.queue := hg
              rw [hfl.queueEq] at hg'
              simp [qFuts] at hg'
            · have hqnil : qFuts r.2.queue = [] := by
                rw [hfl.queueEq]
                rfl
              rw [hqnil, List.append_nil]
              have hperm : List.Perm (reqFuts s ++ qFuts s.queue)
                  ((qFuts s.queue).reverse ++ reqFuts s) := by
                refine List.Perm.trans List.perm_append_comm ?_
                exact List.Perm.append_right (reqFuts s) (List.reverse_perm (qFuts s.queue)).symm
              rw [hfl.reqFutsEq]
              exact hperm.nodup hfi.futNd
        · intro ha2
          by_cases hs : Cmd.sentinel ∈ s.queue
          · exact (hfl.withSentinel hs).2.2.1
          · rw [(hfl.noSentinel hs).2.2.1] at ha2
            have ha2' : s.alive = false := ha2
            rw [ha] at ha2'
            exact Bool.noConfusion ha2'
      have hw : handleWrite s sent =
          if r.1 = true then { r.2 with buffer := r.2.buffer.drop sent } else r.2 := by
        show (if (runFlush s.queue { s with queue := [] }).1 = true
              then { (runFlush s.queue { s with queue := [] }).2 with
                       buffer := (runFlush s.queue { s with queue := [] }).2.buffer.drop sent }
              else (runFlush s.queue { s with queue := [] }).2) =
            if r.1 = true then { r.2 with buffer := r.2.buffer.drop sent } else r.2
        rw [← hr]
      rw [hw]
      by_cases hb : r.1 = true
      · rw [if_pos hb]
        exact Inv_buffer r.2 _ hInv2
      · rw [if_neg hb]
        exact hInv2
  | responseStep request records hc =>
      have ha := alive_of_open hinv hc
      have hfi := hinv.futInv ha
      cases hfind : s.requests.find? (fun p => decide ((p.1 : Int) = -request)) with
      | none =>
          rw [handleResponse_miss s request records hfind]
          exact hinv
      | some nf =>
          obtain ⟨n0, f0⟩ := nf
          obtain ⟨_, _, _, _, hal', _, _, _, _, _, hid', hfi'⟩ :=
            handleResponse_found s request records n0 f0 hinv.idInv hfi hfind
          refine ⟨hid', fun _ => hfi', ?_⟩
          intro h
          rw [hal', ha] at h
          exact Bool.noConfusion h
  | errorStep hc =>
      have ha := alive_of_open hinv hc
      have hfi := hinv.futInv ha
      have ts := terminate_spec s Err.protocolError hinv.idInv hfi.reqPending
        hfi.quePending hfi.futNd
      refine ⟨ts.idInv, ?_, fun _ => ts.closedT⟩
      intro h
      rw [ts.aliveF] at h
      exact Bool.noConfusion h
  | closeStep hc =>
      have ha := alive_of_open hinv hc
      have hfi := hinv.futInv ha
      have ts := terminate_spec s Err.connectionLost hinv.idInv hfi.reqPending
        hfi.quePending hfi.futNd
      refine ⟨ts.idInv, ?_, fun _ => ts.closedT⟩
      intro h
      rw [ts.aliveF] at h
      exact Bool.noConfusion h

/-- Every reachable engine state satisfies the full invariant. -/
theorem Reachable_inv {s : PState} (h : Reachable s) : Inv s := by
  induction h with
  | init => exact Inv_init
  | step hr hs ih => exact Step_inv ih hs

/-! ### Further step lemmas -/

/-- Once the engine is dead and closed, no step revives it. -/
theorem Step_dead {s s' : PState} (ha : s.alive = false) (hcl : s.closed = true)
    (hstep : Step s s') : s'.alive = false ∧ s'.closed = true := by
  cases hstep with
  | sendMessage t c fr ha2 => rw [ha2] at ha; exact Bool.noConfusion ha
  | sendRequest t c fr f ha2 hf => rw [ha2] at ha; exact Bool.noConfusion ha
  | putRaw d => exact ⟨ha, hcl⟩
  | dropStep => exact ⟨ha, hcl⟩
  | writeStep sent hc => rw [hc] at hcl; exact Bool.noConfusion hcl
  | responseStep request records hc => rw [hc] at hcl; exact Bool.noConfusion hcl
  | errorStep hc => rw [hc] at hcl; exact Bool.noConfusion hcl
  | closeStep hc => rw [hc] at hcl; exact Bool.noConfusion hcl

/-- With duplicate-free keys, the demultiplexing search finds exactly the
entry stored under the reply's negated tag. -/
theorem find_entry_of_alookup {l : List (Nat × Nat)} (hnd : (akeys l).Nodup)
    {n f : Nat} {request : Int}
    (hl : alookup l n = some f) (ht : (n : Int) = -request) :
    l.find? (fun p => decide ((p.1 : Int) = -request)) = some (n, f) := by
  induction l with
  | nil => exact Option.noConfusion hl
  | cons p t ih =>
      rw [akeys_cons, List.nodup_cons] at hnd
      rw [alookup_cons] at hl
      by_cases hp : p.1 = n
      · have hpv : p = (n, f) := by
          rw [if_pos hp] at hl
          obtain ⟨a, b⟩ := p
          simp only at hp hl
          injection hl with hl
          rw [hp, hl]
        rw [List.find?_cons_of_pos]
        · rw [hpv]
        · rw [hpv]
          simpa using ht
      · rw [if_neg hp] at hl
        rw [List.find?_cons_of_neg]
        · exact ih hnd.2 hl
        · simp only [decide_eq_true_eq]
          intro he
          apply hp
          have : (p.1 : Int) = (n : Int) := by rw [he, ht]
          exact_mod_cast this

/-- In both branches of `handle_write`, only the buffer differs from the
state the flush produced. -/
theorem handleWrite_fields (s : PState) (sent : Nat) :
    (handleWrite s sent).requests = (flushCommands s).2.requests ∧
    (handleWrite s sent).pool = (flushCommands s).2.pool ∧
    (handleWrite s sent).futures = (flushCommands s).2.futures ∧
    (handleWrite s sent).alive = (flushCommands s).2.alive ∧
    (handleWrite s sent).closed = (flushCommands s).2.closed ∧
    (handleWrite s sent).queue = (flushCommands s).2.queue := by
  by_cases hb : (flushCommands s).1 = true
  · have e : handleWrite s sent =
        { (flushCommands s).2 with buffer := (flushCommands s).2.buffer.drop sent } := by
      show (if (flushCommands s).1 = true
            then { (flushCommands s).2 with buffer := (flushCommands s).2.buffer.drop sent }
            else (flushCommands s).2) = _
      rw [if_pos hb]
    rw [e]
    exact ⟨rfl, rfl, rfl, rfl, rfl, rfl⟩
  · have e : handleWrite s sent = (flushCommands s).2 := by
      show (if (flushCommands s).1 = true
            then { (flushCommands s).2 with buffer := (flushCommands s).2.buffer.drop sent }
            else (flushCommands s).2) = _
      rw [if_neg hb]
    rw [e]
    exact ⟨rfl, rfl, rfl, rfl, rfl, rfl⟩

/-! ### Example states used by the witnesses -/

/-- The engine right after the facade enqueued one request carrying the
fresh pending future 0 (target 5, default context, empty flat records). -/
def exS1 : PState :=
  { enqueueOp initState 5 (0, 0) [] (some 0) with
      futures := aset initState.futures 0 FState.pending }

/-- State `exS1` after the I/O thread drained the queue: request ID 1 was
allocated from the counter and bound to future 0. -/
def exS2 : PState := handleWrite exS1 0

theorem Reachable_exS1 : Reachable exS1 :=
  Reachable.step Reachable.init (Step.sendRequest initState 5 (0, 0) [] 0 rfl rfl)

theorem Reachable_exS2 : Reachable exS2 :=
  Reachable.step Reachable_exS1 (Step.writeStep exS1 0 rfl)

/-! ### Claim C1 -/

/-- Claim C1: In every reachable engine state no request ID is both a key of
the pending-request table and a member of the free-ID pool; across any
step, an ID still pending keeps the very future it was bound to (it is
never reassigned while pending); and an ID enters the pool only through
the one `handleResponse` path, which removes that ID's pending entry. -/
theorem C1_id_lifetime (s : PState) (h : Reachable s) :
    (∀ k ∈ akeys s.requests, k ∉ s.pool) ∧
    (∀ s', Step s s' → ∀ k ∈ akeys s.requests, k ∈ akeys s'.requests →
        alookup s'.requests k = alookup s.requests k) ∧
    (∀ s', Step s s' → ∀ n, n ∉ s.pool → n ∈ s'.pool →
        n ∈ akeys s.requests ∧ n ∉ akeys s'.requests ∧
        ∃ request records, s' = handleResponse s request records) := by
  have hinv := Reachable_inv h
  refine ⟨hinv.idInv.disj, ?_, ?_⟩
  · intro s' hstep k hk hk'
    cases hstep with
    | sendMessage t c fr ha => rfl
    | sendRequest t c fr f ha hf => rfl
    | putRaw d => rfl
    | dropStep => rfl
    | writeStep sent hc =>
        have ha := alive_of_open hinv hc
        have hfi := hinv.futInv ha
        have hfl := runFlush_spec s.queue { s with queue := [] }
          (IdInv_congr hinv.idInv rfl rfl rfl) (fun g hg => hfi.reqPending g hg)
          (fun g hg => hfi.quePending g hg) hfi.futNd
        have hreqw := (handleWrite_fields s sent).1
        show alookup (handleWrite s sent).requests k = alookup s.requests k
        rw [hreqw]
        exact hfl.reqPreserve k hk
    | responseStep request records hc =>
        have ha := alive_of_open hinv hc
        cases hfind : s.requests.find? (fun p => decide ((p.1 : Int) = -request)) with
        | none =>
            rw [handleResponse_miss s request records hfind]
        | some nf =>
            obtain ⟨n0, f0⟩ := nf
            obtain ⟨hre, _, _, _, _, _, _, _, _, _, _, _⟩ :=
              handleResponse_found s request records n0 f0 hinv.idInv (hinv.futInv ha) hfind
            rw [hre] at hk' ⊢
            have hkn : k ≠ n0 := fun he => not_mem_akeys_aerase_self s.requests n0 (he ▸ hk')
            exact alookup_aerase_ne s.requests n0 k hkn
    | errorStep hc =>
        have ha := alive_of_open hinv hc
        have hfi := hinv.futInv ha
        have ts := terminate_spec s Err.protocolError hinv.idInv hfi.reqPending
          hfi.quePending hfi.futNd
        exact ts.reqPreserve k hk
    | closeStep hc =>
        have ha := alive_of_open hinv hc
        have hfi := hinv.futInv ha
        have ts := terminate_spec s Err.connectionLost hinv.idInv hfi.reqPending
          hfi.quePending hfi.futNd
        exact ts.reqPreserve k hk
  · intro s' hstep n hnp hnp'
    cases hstep with
    | sendMessage t c fr ha => exact absurd hnp' hnp
    | sendRequest t c fr f ha hf => exact absurd hnp' hnp
    | putRaw d => exact absurd hnp' hnp
    | dropStep => exact absurd hnp' hnp
    | writeStep sent hc =>
        have ha := alive_of_open hinv hc
        have hfi := hinv.futInv ha
        have hfl := runFlush_spec s.queue { s with queue := [] }
          (IdInv_congr hinv.idInv rfl rfl rfl) (fun g hg => hfi.reqPending g hg)
          (fun g hg => hfi.quePending g hg) hfi.futNd
        have hpw := (handleWrite_fields s sent).2.1
        rw [hpw] at hnp'
        exact absurd (hfl.poolSub n hnp') hnp
    | responseStep request records hc =>
        have ha := alive_of_open hinv hc
        cases hfind : s.requests.find? (fun p => decide ((p.1 : Int) = -request)) with
        | none =>
            rw [handleResponse_miss s request records hfind] at hnp'
            exact absurd hnp' hnp
        | some nf =>
            obtain ⟨n0, f0⟩ := nf
            obtain ⟨hre, hpo, _, _, _, _, hlk, _, _, _, _, _⟩ :=
              handleResponse_found s request records n0 f0 hinv.idInv (hinv.futInv ha) hfind
            rw [hpo] at hnp'
            have hn0 : n = n0 := by
              rcases List.mem_cons.mp hnp' with hh | hh
              · exact hh
              · exact absurd hh hnp
            refine ⟨?_, ?_, request, records, rfl⟩
            · rw [hn0]
              exact mem_akeys_of_alookup hlk
            · rw [hre, hn0]
              exact not_mem_akeys_aerase_self s.requests n0
    | errorStep hc =>
        have ha := alive_of_open hinv hc
        have hfi := hinv.futInv ha
        have ts := terminate_spec s Err.protocolError hinv.idInv hfi.reqPending
          hfi.quePending hfi.futNd
        exact absurd (ts.poolSub n hnp') hnp
    | closeStep hc =>
        have ha := alive_of_open hinv hc
        have hfi := hinv.futInv ha
        have ts := terminate_spec s Err.connectionLost hinv.idInv hfi.reqPending
          hfi.quePending hfi.futNd
        exact absurd (ts.poolSub n hnp') hnp

/-- Witness for C1 at the concrete reachable state `exS2`, which holds one
pending request (ID 1 bound to future 0). -/
theorem C1_id_lifetime_witness :
    (∀ k ∈ akeys exS2.requests, k ∉ exS2.pool) ∧
    (∀ s', Step exS2 s' → ∀ k ∈ akeys exS2.requests, k ∈ akeys s'.requests →
        alookup s'.requests k = alookup exS2.requests k) ∧
    (∀ s', Step exS2 s' → ∀ n, n ∉ exS2.pool → n ∈ s'.pool →
        n ∈ akeys exS2.requests ∧ n ∉ akeys s'.requests ∧
        ∃ request records, s' = handleResponse exS2 request records) :=
  C1_id_lifetime exS2 Reachable_exS2

/-! ### Claim C2 -/

/-- Claim C2: Termination from any reachable open state closes the socket,
marks the engine dead, empties the outbound queue without transmitting it,
fails every still-pending future with one uniform connection-terminated
cause (the given reason, or `'Connection closed'` when a drop sentinel was
queued), makes every later `enqueue` fail immediately with the
`'not connected'` error, and is absorbing: no further step revives the
engine or reopens the socket. -/
theorem C2_terminate_behavior (s : PState) (e : Err) (h : Reachable s)
    (hc : s.closed = false) :
    (terminate s e).alive = false ∧
    (terminate s e).closed = true ∧
    (terminate s e).queue = [] ∧
    (∃ c, (Cmd.sentinel ∉ s.queue → c = e) ∧ (c = e ∨ c = Err.connectionClosed) ∧
       ∀ p ∈ s.requests, alookup (terminate s e).futures p.2 = some (FState.failed c)) ∧
    (∀ t c2 fr fut, enqueue (terminate s e) t c2 fr fut = Except.error Err.notConnected) ∧
    (∀ s2, Step (terminate s e) s2 → s2.alive = false ∧ s2.closed = true) := by
  have hinv := Reachable_inv h
  have ha := alive_of_open hinv hc
  have hfi := hinv.futInv ha
  have ts := terminate_spec s e hinv.idInv hfi.reqPending hfi.quePending hfi.futNd
  refine ⟨ts.aliveF, ts.closedT, ts.queueNil, ?_, ?_, ?_⟩
  · obtain ⟨c, hcs, hcn, hfail⟩ := ts.failedUniform
    refine ⟨c, hcn, ?_, ?_⟩
    · by_cases hs : Cmd.sentinel ∈ s.queue
      · exact Or.inr (hcs hs)
      · exact Or.inl (hcn hs)
    · intro p hp
      have hl : alookup s.requests p.1 = some p.2 := alookup_of_mem_nodup hinv.idInv.keyNd hp
      have hl' := ts.reqPreserve p.1 (List.mem_map_of_mem Prod.fst hp)
      rw [hl] at hl'
      exact hfail (p.1, p.2) (mem_of_alookup hl')
  · intro t c2 fr fut
    unfold enqueue
    rw [ts.aliveF]
    simp
  · intro s2 hstep
    exact Step_dead ts.aliveF ts.closedT hstep

/-- Witness for C2: terminating the concrete state `exS2` (one pending
request) on a socket error. -/
theorem C2_terminate_behavior_witness :
    (terminate exS2 Err.protocolError).alive = false ∧
    (terminate exS2 Err.protocolError).closed = true ∧
    (terminate exS2 Err.protocolError).queue = [] ∧
    (∃ c, (Cmd.sentinel ∉ exS2.queue → c = Err.protocolError) ∧
       (c = Err.protocolError ∨ c = Err.connectionClosed) ∧
       ∀ p ∈ exS2.requests,
         alookup (terminate exS2 Err.protocolError).futures p.2 =
           some (FState.failed c)) ∧
    (∀ t c2 fr fut, enqueue (terminate exS2 Err.protocolError) t c2 fr fut =
        Except.error Err.notConnected) ∧
    (∀ s2, Step (terminate exS2 Err.protocolError) s2 →
        s2.alive = false ∧ s2.closed = true) :=
  C2_terminate_behavior exS2 Err.protocolError Reachable_exS2 rfl

/-! ### Claim C4 -/

/-- Claim C4: Inbound demultiplexing on any reachable open state: a reply
whose negated tag matches no pending entry is silently discarded with no
state change; a reply matching the entry `(n, f)` removes exactly that
entry, returns `n` to the pool, fails `f` with the first error record (in
record order) if one exists and completes it with the full record list
otherwise, and leaves every other pending entry and its future untouched. -/
theorem C4_demux (s : PState) (request : Int) (records : List RRec)
    (h : Reachable s) (hc : s.closed = false) :
    ((∀ p ∈ s.requests, (p.1 : Int) ≠ -request) →
        handleResponse s request records = s) ∧
    (∀ n f, alookup s.requests n = some f → (n : Int) = -request →
        (handleResponse s request records).requests = aerase s.requests n ∧
        n ∈ (handleResponse s request records).pool ∧
        alookup (handleResponse s request records).futures f =
          some (match firstErr records with
                | some e2 => FState.failed (Err.recordErr e2)
                | none => FState.completed records) ∧
        (∀ p ∈ s.requests, p.1 ≠ n →
            alookup (handleResponse s request records).requests p.1 = some p.2 ∧
            alookup (handleResponse s request records).futures p.2 =
              some FState.pending) ∧
        (handleResponse s request records).queue = s.queue ∧
        (handleResponse s request records).buffer = s.buffer ∧
        (handleResponse s request records).alive = s.alive) := by
  have hinv := Reachable_inv h
  have ha := alive_of_open hinv hc
  have hfi := hinv.futInv ha
  constructor
  · intro hnone
    apply handleResponse_miss
    rw [List.find?_eq_none]
    intro p hp
    simp only [decide_eq_true_eq]
    exact hnone p hp
  · intro n f hlk htag
    have hfind := find_entry_of_alookup hinv.idInv.keyNd hlk htag
    obtain ⟨hre, hpo, hqu, hbu, hal, hcl, hlk2, htag2, hfut, hoth, hid2, hfi2⟩ :=
      handleResponse_found s request records n f hinv.idInv hfi hfind
    refine ⟨hre, ?_, hfut, hoth, hqu, hbu, hal⟩
    rw [hpo]
    exact List.mem_cons_self n s.pool

/-- Witness for C4 at the concrete state `exS2`, replying to request 1. -/
theorem C4_demux_witness :
    ((∀ p ∈ exS2.requests, (p.1 : Int) ≠ -(-1 : Int)) →
        handleResponse exS2 (-1) [(7, Payload.val 3)] = exS2) ∧
    (∀ n f, alookup exS2.requests n = some f → (n : Int) = -(-1 : Int) →
        (handleResponse exS2 (-1) [(7, Payload.val 3)]).requests =
          aerase exS2.requests n ∧
        n ∈ (handleResponse exS2 (-1) [(7, Payload.val 3)]).pool ∧
        alookup (handleResponse exS2 (-1) [(7, Payload.val 3)]).futures f =
          some (match firstErr [(7, Payload.val 3)] with
                | some e2 => FState.failed (Err.recordErr e2)
                | none => FState.completed [(7, Payload.val 3)]) ∧
        (∀ p ∈ exS2.requests, p.1 ≠ n →
            alookup (handleResponse exS2 (-1) [(7, Payload.val 3)]).requests p.1 =
              some p.2 ∧
            alookup (handleResponse exS2 (-1) [(7, Payload.val 3)]).futures p.2 =
              some FState.pending) ∧
        (handleResponse exS2 (-1) [(7, Payload.val 3)]).queue = exS2.queue ∧
        (handleResponse exS2 (-1) [(7, Payload.val 3)]).buffer = exS2.buffer ∧
        (handleResponse exS2 (-1) [(7, Payload.val 3)]).alive = exS2.alive) :=
  C4_demux exS2 (-1) [(7, Payload.val 3)] Reachable_exS2 rfl

/-! ### Claim C9 -/

/-- Claim C9: When the engine terminates from a reachable open state, every
request command still waiting on the outbound queue is drained: its future
ends up registered in the request table and failed with the same uniform
cause as the already-pending futures, so no future accepted by a
successful `enqueue` remains pending after termination. -/
theorem C9_queued_drained (s : PState) (e : Err) (h : Reachable s)
    (hc : s.closed = false) :
    ∃ c, (∀ f ∈ qFuts s.queue,
        (∃ k, alookup (terminate s e).requests k = some f) ∧
        alookup (terminate s e).futures f = some (FState.failed c)) ∧
      (∀ p ∈ s.requests,
        alookup (terminate s e).futures p.2 = some (FState.failed c)) := by
  have hinv := Reachable_inv h
  have ha := alive_of_open hinv hc
  have hfi := hinv.futInv ha
  have ts := terminate_spec s e hinv.idInv hfi.reqPending hfi.quePending hfi.futNd
  obtain ⟨c, _, _, hfail⟩ := ts.failedUniform
  refine ⟨c, ?_, ?_⟩
  · intro f hf
    obtain ⟨k, hk⟩ := ts.registered f hf
    exact ⟨⟨k, hk⟩, hfail (k, f) (mem_of_alookup hk)⟩
  · intro p hp
    have hl : alookup s.requests p.1 = some p.2 := alookup_of_mem_nodup hinv.idInv.keyNd hp
    have hl' := ts.reqPreserve p.1 (List.mem_map_of_mem Prod.fst hp)
    rw [hl] at hl'
    exact hfail (p.1, p.2) (mem_of_alookup hl')

/-- Witness for C9 at the concrete state `exS1`, whose queue still holds
one request command carrying future 0. -/
theorem C9_queued_drained_witness :
    ∃ c, (∀ f ∈ qFuts exS1.queue,
        (∃ k, alookup (terminate exS1 Err.connectionLost).requests k = some f) ∧
        alookup (terminate exS1 Err.connectionLost).futures f =
          some (FState.failed c)) ∧
      (∀ p ∈ exS1.requests,
        alookup (terminate exS1 Err.connectionLost).futures p.2 =
          some (FState.failed c)) :=
  C9_queued_drained exS1 Err.connectionLost Reachable_exS1 rfl

/-! ### Claim C5 -/

theorem aerase_aset_fresh {κ α : Type} [DecidableEq κ] {l : List (κ × α)} {k : κ}
    (h : k ∉ akeys l) (v : α) : aerase (aset l k v) k = l := by
  rw [aset_of_not_mem h, aerase_cons, if_pos rfl, aerase_of_not_mem h]

/-- Helper composite: the engine state after the facade enqueues one
request (fresh pending future `f`) and the I/O thread drains the queue. -/
def afterRequestFlush (s : PState) (t : Nat) (c : Nat × Nat) (fr : List Nat)
    (f : Nat) : PState :=
  handleWrite
    { enqueueOp s t c fr (some f) with futures := aset s.futures f FState.pending } 0

/-- Counterexample to C5 as stated: at the concrete reachable state
`exS2` (one pending request, ID 1 bound to future 0), terminating the
connection fails the held future but does **not** remove the entry from
the pending-request table — `terminate` never deletes table entries. -/
theorem C5_counterexample :
    exS2.requests = [(1, 0)] ∧
    (terminate exS2 Err.connectionLost).requests = [(1, 0)] ∧
    alookup (terminate exS2 Err.connectionLost).requests 1 = some 0 ∧
    alookup (terminate exS2 Err.connectionLost).futures 0 =
      some (FState.failed Err.connectionLost) := by decide

/-- Claim C5, amended: From any reachable open state with a drained queue:
a one-way message is serialized with request tag 0 and creates no
pending-request entry; a request is serialized with a freshly allocated
tag `n ≥ 1` and creates exactly one pending entry `(n, f)`; a matching
reply removes that entry again; upon termination the held future is
failed, but the entry itself remains in the table (the table is dead
thereafter). -/
theorem C5_framing (s : PState) (h : Reachable s) (hq0 : s.queue = [])
    (hc : s.closed = false) (t : Nat) (c : Nat × Nat) (fr : List Nat) (f : Nat)
    (hf : alookup s.futures f = none) :
    flushCommands (enqueueOp s t c fr none) =
      (true, { s with queue := [], buffer := s.buffer ++ [BufEntry.pkt t c 0 fr] }) ∧
    (∃ n, 1 ≤ n ∧ n ∉ akeys s.requests ∧
      (afterRequestFlush s t c fr f).requests = aset s.requests n f ∧
      (afterRequestFlush s t c fr f).buffer =
        s.buffer ++ [BufEntry.pkt t c (Int.ofNat n) fr] ∧
      (∀ records,
        (handleResponse (afterRequestFlush s t c fr f) (-(Int.ofNat n))
          records).requests = s.requests) ∧
      (∀ e, alookup (terminate (afterRequestFlush s t c fr f) e).requests n = some f ∧
            alookup (terminate (afterRequestFlush s t c fr f) e).futures f =
              some (FState.failed e))) := by
  have hinv := Reachable_inv h
  have ha := alive_of_open hinv hc
  constructor
  · -- message framing
    show runFlush ((enqueueOp s t c fr none).queue)
        { enqueueOp s t c fr none with queue := [] } = _
    rw [show (enqueueOp s t c fr none).queue = s.queue ++ [Cmd.packet t c fr none]
        from rfl, hq0]
    rfl
  · -- request framing
    have hss := startRequest_spec
      { enqueueOp s t c fr (some f) with
          futures := aset s.futures f FState.pending, queue := [] } f
      (IdInv_congr hinv.idInv rfl rfl rfl)
    set sB : PState :=
      { enqueueOp s t c fr (some f) with
          futures := aset s.futures f FState.pending, queue := [] } with hsB
    set n := (startRequest sB f).1 with hn
    set s10 := (startRequest sB f).2 with hs10
    have hflush : flushCommands
        { enqueueOp s t c fr (some f) with futures := aset s.futures f FState.pending } =
        (true, { s10 with
                   buffer := s10.buffer ++ [BufEntry.pkt t c (Int.ofNat n) fr] }) := by
      show runFlush ((enqueueOp s t c fr (some f)).queue) sB = _
      rw [show (enqueueOp s t c fr (some f)).queue = s.queue ++ [Cmd.packet t c fr (some f)]
          from rfl, hq0]
      rfl
    have haf : afterRequestFlush s t c fr f =
        { s10 with buffer := s10.buffer ++ [BufEntry.pkt t c (Int.ofNat n) fr] } := by
      show (if (flushCommands
              { enqueueOp s t c fr (some f) with
                  futures := aset s.futures f FState.pending }).1 = true
            then { (flushCommands
                     { enqueueOp s t c fr (some f) with
                         futures := aset s.futures f FState.pending }).2 with
                     buffer := (flushCommands
                       { enqueueOp s t c fr (some f) with
                           futures := aset s.futures f FState.pending }).2.buffer.drop 0 }
            else (flushCommands
                   { enqueueOp s t c fr (some f) with
                       futures := aset s.futures f FState.pending }).2) = _
      rw [hflush]
      rfl
    have hfreq : (afterRequestFlush s t c fr f).requests = aset s.requests n f := by
      rw [haf]
      exact hss.reqEq
    have hfresh : n ∉ akeys s.requests := hss.fresh
    have hRaf : Reachable (afterRequestFlush s t c fr f) :=
      Reachable.step (Reachable.step h (Step.sendRequest s t c fr f ha hf))
        (Step.writeStep _ 0 hc)
    have hinv2 := Reachable_inv hRaf
    have ha2 : (afterRequestFlush s t c fr f).alive = true := by
      rw [haf]
      show s10.alive = true
      rw [hss.aliveEq]
      exact ha
    have hlkn : alookup (afterRequestFlush s t c fr f).requests n = some f := by
      rw [hfreq]
      exact alookup_aset_self s.requests n f
    refine ⟨n, hss.pos, hfresh, hfreq, ?_, ?_, ?_⟩
    · rw [haf]
      show s10.buffer ++ [BufEntry.pkt t c (Int.ofNat n) fr] =
          s.buffer ++ [BufEntry.pkt t c (Int.ofNat n) fr]
      rw [hss.bufEq]
      rfl
    · intro records
      have htag : (n : Int) = -(-(Int.ofNat n)) := (neg_neg _).symm
      have hfind := find_entry_of_alookup hinv2.idInv.keyNd hlkn htag
      obtain ⟨hre, _, _, _, _, _, _, _, _, _, _, _⟩ :=
        handleResponse_found (afterRequestFlush s t c fr f) (-(Int.ofNat n)) records n f
          hinv2.idInv (hinv2.futInv ha2) hfind
      rw [hre, hfreq, aerase_aset_fresh hfresh]
    · intro e
      have hfi2 := hinv2.futInv ha2
      have ts := terminate_spec (afterRequestFlush s t c fr f) e hinv2.idInv
        hfi2.reqPending hfi2.quePending hfi2.futNd
      have hnkeys : n ∈ akeys (afterRequestFlush s t c fr f).requests :=
        mem_akeys_of_alookup hlkn
      have hlkn' := ts.reqPreserve n hnkeys
      rw [hlkn] at hlkn'
      have hqnil : (afterRequestFlush s t c fr f).queue = [] := by
        rw [haf]
        show s10.queue = []
        rw [hss.queueEq]
      obtain ⟨cc, _, hcnone, hfail⟩ := ts.failedUniform
      have hce : cc = e := by
        apply hcnone
        rw [hqnil]
        simp
      refine ⟨hlkn', ?_⟩
      rw [hce] at hfail
      exact hfail (n, f) (mem_of_alookup hlkn')

/-- Witness for the amended C5 at the initial state. -/
theorem C5_framing_witness :
    (flushCommands (enqueueOp initState 5 (0, 0) [] none) =
      (true, { initState with queue := [], buffer := initState.buffer ++ [BufEntry.pkt 5 (0, 0) 0 []] })) ∧
    (∃ n, 1 ≤ n ∧ n ∉ akeys initState.requests ∧
      (afterRequestFlush initState 5 (0, 0) [] 0).requests =
        aset initState.requests n 0 ∧
      (afterRequestFlush initState 5 (0, 0) [] 0).buffer =
        initState.buffer ++ [BufEntry.pkt 5 (0, 0) (Int.ofNat n) []] ∧
      (∀ records,
        (handleResponse (afterRequestFlush initState 5 (0, 0) [] 0) (-(Int.ofNat n))
          records).requests = initState.requests) ∧
      (∀ e, alookup (terminate (afterRequestFlush initState 5 (0, 0) [] 0) e).requests n =
              some 0 ∧
            alookup (terminate (afterRequestFlush initState 5 (0, 0) [] 0) e).futures 0 =
              some (FState.failed e))) :=
  C5_framing initState Reachable.init rfl rfl 5 (0, 0) [] 0 rfl

/-! ### Claim C8 -/

/-- The load of a state: pending requests plus request commands still on
the outbound queue — the number of requests outstanding at that moment. -/
def loadP (s : PState) : Nat := s.requests.length + reqCount s.queue

/-- Reachability along traces in which at most `K` requests are ever
outstanding at once. -/
inductive ReachableK (K : Nat) : PState → Prop
  | init : ReachableK K initState
  | step {s s' : PState} : ReachableK K s → Step s s' → loadP s' ≤ K → ReachableK K s'

theorem ReachableK_reachable {K : Nat} {s : PState} (h : ReachableK K s) :
    Reachable s := by
  induction h with
  | init => exact Reachable.init
  | step hr hs hl ih => exact Reachable.step ih hs

theorem ReachableK_sum {K : Nat} {s : PState} (h : ReachableK K s) :
    s.requests.length + s.pool.length ≤ K ∧ loadP s ≤ K := by
  induction h with
  | init =>
      constructor <;> simp [initState, loadP, reqCount, qFuts]
  | step hr hs hl ih =>
      refine ⟨?_, hl⟩
      have hsum := ih.1
      have hload := ih.2
      have hinv := Reachable_inv (ReachableK_reachable hr)
      cases hs with
      | sendMessage t c fr ha => exact hsum
      | sendRequest t c fr f ha hf => exact hsum
      | putRaw d => exact hsum
      | dropStep => exact hsum
      | writeStep sent hc =>
          have ha := alive_of_open hinv hc
          have hfi := hinv.futInv ha
          rename_i s1
          have hfl := runFlush_spec s1.queue { s1 with queue := [] }
            (IdInv_congr hinv.idInv rfl rfl rfl) (fun g hg => hfi.reqPending g hg)
            (fun g hg => hfi.quePending g hg) hfi.futNd
          have hrw := handleWrite_fields s1 sent
          rw [hrw.1, hrw.2.1]
          exact hfl.sumBound K hsum hload
      | responseStep request records hc =>
          have ha := alive_of_open hinv hc
          rename_i s1
          cases hfind : s1.requests.find? (fun p => decide ((p.1 : Int) = -request)) with
          | none =>
              rw [handleResponse_miss s1 request records hfind]
              exact hsum
          | some nf =>
              obtain ⟨n0, f0⟩ := nf
              obtain ⟨hre, hpo, _, _, _, _, hlk, _, _, _, _, _⟩ :=
                handleResponse_found s1 request records n0 f0 hinv.idInv
                  (hinv.futInv ha) hfind
              rw [hre, hpo]
              have hlen := aerase_length_of_mem hinv.idInv.keyNd
                (mem_akeys_of_alookup hlk)
              simp only [List.length_cons]
              omega
      | errorStep hc =>
          have ha := alive_of_open hinv hc
          have hfi := hinv.futInv ha
          rename_i s1
          have ts := terminate_spec s1 Err.protocolError hinv.idInv hfi.reqPending
            hfi.quePending hfi.futNd
          exact ts.sumBound K hsum hload
      | closeStep hc =>
          have ha := alive_of_open hinv hc
          have hfi := hinv.futInv ha
          rename_i s1
          have ts := terminate_spec s1 Err.connectionLost hinv.idInv hfi.reqPending
            hfi.quePending hfi.futNd
          exact ts.sumBound K hsum hload

/-- Claim C8: Along any trace with at most `K` requests concurrently
outstanding, the table and pool together never hold more than `K` IDs, the
allocation counter never exceeds `K + 1`, and the set of request IDs ever
allocated is exactly the interval `[1, nextRequest)` — so its size is at
most `K`, independent of how many round trips completed. -/
theorem C8_id_bound (K : Nat) (s : PState) (h : ReachableK K s) :
    s.requests.length + s.pool.length ≤ K ∧
    s.nextRequest ≤ K + 1 ∧
    (∀ k, (k ∈ akeys s.requests ∨ k ∈ s.pool) ↔ (1 ≤ k ∧ k < s.nextRequest)) := by
  have hsum := (ReachableK_sum h).1
  have hinv := Reachable_inv (ReachableK_reachable h)
  refine ⟨hsum, ?_, ?_⟩
  · have := hinv.idInv.countEq
    omega
  · intro k
    constructor
    · intro hk
      rcases hk with hk | hk
      · exact hinv.idInv.keyBound k hk
      · exact hinv.idInv.poolBound k hk
    · intro hk
      exact hinv.idInv.complete k hk.1 hk.2

/-- Witness for C8: a round trip with at most one request outstanding
reaches `exS2`; the counter stands at 2 and exactly ID 1 was allocated. -/
theorem C8_id_bound_witness :
    exS2.requests.length + exS2.pool.length ≤ 1 ∧
    exS2.nextRequest ≤ 1 + 1 ∧
    (∀ k, (k ∈ akeys exS2.requests ∨ k ∈ exS2.pool) ↔ (1 ≤ k ∧ k < exS2.nextRequest)) :=
  C8_id_bound 1 exS2
    (ReachableK.step
      (ReachableK.step ReachableK.init
        (Step.sendRequest initState 5 (0, 0) [] 0 rfl rfl) (by decide))
      (Step.writeStep exS1 0 rfl) (by decide))

/-! ### The connection facade (`AsyncoreConnection`): name resolution -/

/-- A server or setting identifier as passed by the caller: either a
string name pending resolution (`isinstance(x, str)`) or a resolved
numeric ID. -/
inductive SId : Type
  | name (s : String)
  | id (n : Nat)
deriving DecidableEq, Repr

/-- Whether the identifier is still a string name. -/
def SId.isName : SId → Bool
  | SId.name _ => true
  | SId.id _ => false

/-- One record handed to `sendRequest`/`sendMessage`: the setting
identifier `rec[0]` and an opaque handle standing for `rec[1:]`. -/
structure LRec : Type where
  sid : SId
  rest : Nat
deriving DecidableEq, Repr

/-- Embeds `self.serverCache`: server name → server ID. -/
abbrev ServerCache : Type := List (String × Nat)

/-- Embeds `self.settingCache`: server ID → (setting name → setting ID). -/
abbrev SettingCache : Type := List (Nat × List (String × Nat))

/-- The server-cache pass: `if isinstance(server, str) and server in
self.serverCache: server = self.serverCache[server]`. -/
def resolveServer (sc : ServerCache) : SId → SId
  | SId.name s2 =>
      match alookup sc s2 with
      | some i => SId.id i
      | none => SId.name s2
  | SId.id n => SId.id n

/-- One record of the substitution loop over the per-server settings
cache: a string name found in the cache is replaced by its ID. -/
def substOne (settings : List (String × Nat)) (r : LRec) : LRec :=
  match r.sid with
  | SId.name s2 =>
      match alookup settings s2 with
      | some i => { r with sid := SId.id i }
      | none => r
  | SId.id _ => r

/-- The per-record substitution loop over the per-server settings cache. -/
def substSettings (settings : List (String × Nat)) (records : List LRec) : List LRec :=
  records.map (substOne settings)

/-- The settings-cache pass: `if server in self.settingCache: ...` (the
dictionary is keyed by server IDs, so a still-unresolved name misses). -/
def cachePass (stc : SettingCache) (server : SId) (records0 : List LRec) : List LRec :=
  match server with
  | SId.id n =>
      match alookup stc n with
      | some settings => substSettings settings records0
      | none => records0
  | SId.name _ => records0

/-- Embeds `settingLookups = [(i, rec[0]) for i, rec in enumerate(records) if
isinstance(rec[0], str)]`. -/
def settingLookups (records : List LRec) : List (Nat × String) :=
  records.enum.filterMap (fun p =>
    match p.2.sid with
    | SId.name s2 => some (p.1, s2)
    | SId.id _ => none)

/-- The observable outcome of one `_lookupNames` call: the returned
`(target, records)` pair or the error the call raises, the two caches as
the call leaves them, and every lookup request issued over the wire (the
`(C.LOOKUP, (server, names))` payloads handed to `_sendRequestNoLookup`). -/
structure LookupOut : Type where
  result : Except Err (SId × List LRec)
  sc : ServerCache
  stc : SettingCache
  lookups : List (SId × List String)
deriving Repr

/-- Embeds `AsyncoreConnection._lookupNames`.  The fast path — server
resolved and no string setting names left after the two cache passes —
returns the cache-substituted target and records without issuing any
lookup.  On a cache miss the code hands one lookup request
`recs = [(C.LOOKUP, (server, names), ...)]` to `_sendRequestNoLookup`
(line 212), which enqueues it and returns a `concurrent.futures.Future`;
line 213 (`serverID, IDs = resp[0][1]`) then subscripts that `Future`
without ever calling `.result()`, raising `TypeError` — so the
cache-update and record-substitution code of lines 214-222 is
unreachable and neither cache is modified on this path. -/
def lookupNames (sc : ServerCache) (stc : SettingCache) (server0 : SId)
    (records0 : List LRec) : LookupOut :=
  if SId.isName (resolveServer sc server0) = false ∧
     settingLookups (cachePass stc (resolveServer sc server0) records0) = [] then
    ⟨Except.ok (resolveServer sc server0,
        cachePass stc (resolveServer sc server0) records0),
     sc, stc, []⟩
  else
    ⟨Except.error Err.typeError, sc, stc,
     [(resolveServer sc server0,
       (settingLookups (cachePass stc (resolveServer sc server0) records0)).map
         Prod.snd)]⟩

/-- The server identifier a caller-supplied target resolves to through the
server cache, if any. -/
def serverResolved (sc : ServerCache) (server0 : SId) : Option Nat :=
  match server0 with
  | SId.id n => some n
  | SId.name s2 => alookup sc s2

/-- A record is resolvable against the settings cached for server `n`. -/
def recResolvable (stc : SettingCache) (n : Nat) (r : LRec) : Prop :=
  match r.sid with
  | SId.id _ => True
  | SId.name s2 =>
      ∃ settings i, alookup stc n = some settings ∧ alookup settings s2 = some i

/-! ### The connection facade: handshake and flag bookkeeping -/

/-- The error propagated out of `connect`: a `LoginFailedError` carrying
`'Incorrect password.'`, `'Bad identification.'`, or wrapping a
lower-level error from the socket or the challenge request. -/
inductive LoginMsg : Type
  | incorrectPassword
  | badIdentification
  | wrappedLow (e : Nat)
deriving DecidableEq, Repr

/-- Outcomes of the three handshake requests `login` sends to the
manager: the challenge request, the password-digest request, and the
identification request. -/
structure HandshakeEnv : Type where
  challengeResp : Except Nat (List Nat)
  passwordResp : Except Nat (List Nat)
  identResp : Except Nat Nat
deriving Repr

/-- The facade's connection flag (`self.connected`). -/
structure Facade : Type where
  connected : Bool
deriving DecidableEq, Repr

/-- Embeds `BaseConnection.disconnect`: tears the connection down only when the
flag says connected; the Bool reports whether teardown (`drop` plus
joining the I/O thread) actually ran. -/
def disconnectF (fc : Facade) : Facade × Bool :=
  if fc.connected then ({ connected := false }, true) else (fc, false)

/-- Embeds `AsyncoreConnection._connect` composed with `login`, over an abstract
handshake environment.  Returns the propagated result together with
whether the socket and I/O thread were torn down before the error
propagated.  `self.connected` is assigned `False` at the top of
`_connect`, so the `self.disconnect()` on the failure path consults a
false flag; a step-1 failure propagates to the outer handler which wraps
it in a `LoginFailedError`, and step-2/step-3 failures become the
`'Incorrect password.'` and `'Bad identification.'` login failures. -/
def connectA (env : HandshakeEnv) : Except LoginMsg Nat × Bool :=
  let fc : Facade := { connected := false }
  match env.challengeResp with
  | Except.error e =>
      (Except.error (LoginMsg.wrappedLow e), (disconnectF fc).2)
  | Except.ok _challenge =>
      match env.passwordResp with
      | Except.error _ =>
          (Except.error LoginMsg.incorrectPassword, (disconnectF fc).2)
      | Except.ok _welcome =>
          match env.identResp with
          | Except.error _ =>
              (Except.error LoginMsg.badIdentification, (disconnectF fc).2)
          | Except.ok assignedId => (Except.ok assignedId, false)

/-- The head of `AsyncoreConnection._connect`: the TLS-mode check fires
before any socket is created; the Bool records whether a socket was
opened (any network activity at all). -/
def connectTlsCheck (tlsOn : Bool) : Except Err Unit × Bool :=
  if tlsOn then (Except.error Err.tlsUnsupported, false)
  else (Except.ok (), true)

/-- The observable outcome of one `sendRequest` call: the synchronous
result, the lookup requests issued during name resolution, and the
caller's own packet if it was handed to the engine. -/
structure SendOut : Type where
  result : Except Err Unit
  lookups : List (SId × List String)
  enqueuedRequest : Option (SId × List LRec)
deriving Repr

/-- Embeds `AsyncoreConnection.sendRequest`: `_lookupNames` runs first, so
on a cache miss its `TypeError` propagates (after the lookup packet was
already enqueued) and the timeout check is never reached; only when name
resolution returns does `_sendRequestNoLookup` raise on a non-null
timeout, before the request's own packet reaches the engine. -/
def sendRequestF (sc : ServerCache) (stc : SettingCache) (target : SId)
    (records : List LRec) (timeout : Option Nat) : SendOut :=
  match (lookupNames sc stc target records).result, timeout with
  | Except.error e, _ =>
      ⟨Except.error e, (lookupNames sc stc target records).lookups, none⟩
  | Except.ok _, some _ =>
      ⟨Except.error Err.timeoutUnsupported,
       (lookupNames sc stc target records).lookups, none⟩
  | Except.ok sr, none =>
      ⟨Except.ok (), (lookupNames sc stc target records).lookups, some sr⟩

/-- Embeds `AsyncoreConnection._sendPacket` acting on facade flag and engine:
`flattenRecords` runs outside the `try`; only `enqueue` is guarded, and
on failure the flag is cleared before the error re-raises. -/
def sendPacketF (fc : Facade) (eng : PState) (t : Nat) (c : Nat × Nat)
    (fr : List Nat) (fut : Option Nat) : (Facade × PState) × Option Err :=
  match enqueue eng t c fr fut with
  | Except.ok eng2 => ((fc, eng2), none)
  | Except.error err => (({ connected := false }, eng), some err)

/-- Embeds `BaseConnection.disconnect` for the asyncore facade: when flagged
connected it calls `AsyncoreProtocol.drop` and joins the I/O thread,
otherwise it is a no-op.  The Bool reports whether `drop`/join ran. -/
def disconnectA (fc : Facade) (eng : PState) : (Facade × PState) × Bool :=
  if fc.connected then (({ connected := false }, dropP eng), true)
  else ((fc, eng), false)

/-! ### Characterizing `_lookupNames` -/

/-- The setting names a `_lookupNames` call still has to ask the manager
about after both cache passes. -/
def unresolvedNames (sc : ServerCache) (stc : SettingCache) (server0 : SId)
    (records0 : List LRec) : List String :=
  (settingLookups (cachePass stc (resolveServer sc server0) records0)).map Prod.snd

theorem resolveServer_id (sc : ServerCache) (n : Nat) :
    resolveServer sc (SId.id n) = SId.id n := rfl

theorem resolveServer_name_hit {sc : ServerCache} {s2 : String} {i : Nat}
    (h : alookup sc s2 = some i) : resolveServer sc (SId.name s2) = SId.id i := by
  simp only [resolveServer, h]

theorem resolveServer_name_miss {sc : ServerCache} {s2 : String}
    (h : alookup sc s2 = none) : resolveServer sc (SId.name s2) = SId.name s2 := by
  simp only [resolveServer, h]

theorem isName_resolveServer_false_iff (sc : ServerCache) (server0 : SId) :
    SId.isName (resolveServer sc server0) = false ↔
      ∃ n, serverResolved sc server0 = some n := by
  cases server0 with
  | id n =>
      simp [resolveServer_id, SId.isName, serverResolved]
  | name s2 =>
      cases hc : alookup sc s2 with
      | none =>
          rw [resolveServer_name_miss hc]
          simp [SId.isName, serverResolved, hc]
      | some i =>
          rw [resolveServer_name_hit hc]
          simp [SId.isName, serverResolved, hc]

theorem resolveServer_eq_of_resolved {sc : ServerCache} {server0 : SId} {n : Nat}
    (h : serverResolved sc server0 = some n) : resolveServer sc server0 = SId.id n := by
  cases server0 with
  | id m =>
      unfold serverResolved at h
      injection h with h
      rw [h]
      exact resolveServer_id sc n
  | name s2 =>
      unfold serverResolved at h
      exact resolveServer_name_hit h

theorem substOne_of_id {settings : List (String × Nat)} {r : LRec} {m : Nat}
    (h : r.sid = SId.id m) : substOne settings r = r := by
  unfold substOne
  rw [h]

theorem substOne_of_hit {settings : List (String × Nat)} {r : LRec} {s2 : String}
    {i : Nat} (h : r.sid = SId.name s2) (hl : alookup settings s2 = some i) :
    substOne settings r = { r with sid := SId.id i } := by
  simp only [substOne, h, hl]

theorem substOne_of_miss {settings : List (String × Nat)} {r : LRec} {s2 : String}
    (h : r.sid = SId.name s2) (hl : alookup settings s2 = none) :
    substOne settings r = r := by
  simp only [substOne, h, hl]

theorem recResolvable_id {stc : SettingCache} {n : Nat} {r : LRec} {m : Nat}
    (h : r.sid = SId.id m) : recResolvable stc n r := by
  unfold recResolvable
  rw [h]
  trivial

theorem recResolvable_name {stc : SettingCache} {n : Nat} {r : LRec} {s2 : String}
    (h : r.sid = SId.name s2) :
    recResolvable stc n r ↔
      ∃ settings i, alookup stc n = some settings ∧ alookup settings s2 = some i := by
  unfold recResolvable
  rw [h]

theorem settingLookups_nil_iff (records : List LRec) :
    settingLookups records = [] ↔ ∀ r ∈ records, SId.isName r.sid = false := by
  unfold settingLookups
  rw [List.filterMap_eq_nil_iff]
  constructor
  · intro h r hr
    have hr2 : r ∈ records.enum.map Prod.snd := by
      rw [List.enum_map_snd]
      exact hr
    obtain ⟨p, hp, hps⟩ := List.mem_map.mp hr2
    have hnone := h p hp
    cases hs : p.2.sid with
    | name s2 =>
        rw [hs] at hnone
        exact Option.noConfusion hnone
    | id m =>
        rw [← hps, hs]
        rfl
  · intro h p hp
    have hr : p.2 ∈ records := by
      have hm : p.2 ∈ records.enum.map Prod.snd := List.mem_map_of_mem Prod.snd hp
      rwa [List.enum_map_snd] at hm
    have hb := h p.2 hr
    cases hs : p.2.sid with
    | name s2 =>
        rw [hs] at hb
        exact Bool.noConfusion hb
    | id m =>
        rfl

/-- Cache-resolvability of every record makes the settings pass resolve
everything: no lookups remain. -/
theorem settingLookups_cachePass_nil {stc : SettingCache} {n : Nat}
    {records0 : List LRec} (h : ∀ r ∈ records0, recResolvable stc n r) :
    settingLookups (cachePass stc (SId.id n) records0) = [] := by
  rw [settingLookups_nil_iff]
  intro r' hr'
  cases hstc : alookup stc n with
  | none =>
      simp only [cachePass, hstc] at hr'
      have hres := h r' hr'
      cases hs : r'.sid with
      | name s2 =>
          rw [recResolvable_name hs] at hres
          obtain ⟨settings, i, hset, _⟩ := hres
          rw [hstc] at hset
          exact Option.noConfusion hset
      | id m => rfl
  | some settings =>
      simp only [cachePass, hstc] at hr'
      obtain ⟨r, hr, hrr⟩ := List.mem_map.mp hr'
      have hres := h r hr
      rw [← hrr]
      cases hs : r.sid with
      | id m =>
          rw [substOne_of_id hs, hs]
          rfl
      | name s2 =>
          rw [recResolvable_name hs] at hres
          obtain ⟨settings2, i, hset2, hsl⟩ := hres
          rw [hstc] at hset2
          injection hset2 with hset2
          rw [← hset2] at hsl
          rw [substOne_of_hit hs hsl]
          rfl

/-- Conversely, if nothing is left to look up after the settings pass,
every record was resolvable from the cache. -/
theorem resolvable_of_settingLookups_nil {stc : SettingCache} {n : Nat}
    {records0 : List LRec}
    (h : settingLookups (cachePass stc (SId.id n) records0) = []) :
    ∀ r ∈ records0, recResolvable stc n r := by
  rw [settingLookups_nil_iff] at h
  intro r hr
  cases hs : r.sid with
  | id m => exact recResolvable_id hs
  | name s2 =>
      rw [recResolvable_name hs]
      cases hstc : alookup stc n with
      | none =>
          simp only [cachePass, hstc] at h
          have hb := h r hr
          rw [hs] at hb
          exact Bool.noConfusion hb
      | some settings =>
          simp only [cachePass, hstc] at h
          have hmem : substOne settings r ∈ substSettings settings records0 :=
            List.mem_map_of_mem (substOne settings) hr
          have hb := h (substOne settings r) hmem
          cases hsl : alookup settings s2 with
          | none =>
              rw [substOne_of_miss hs hsl, hs] at hb
              exact Bool.noConfusion hb
          | some i => exact ⟨settings, i, rfl, hsl⟩

theorem lookupNames_eq_fast (sc : ServerCache) (stc : SettingCache)
    (server0 : SId) (records0 : List LRec)
    (h1 : SId.isName (resolveServer sc server0) = false)
    (h2 : settingLookups (cachePass stc (resolveServer sc server0) records0) = []) :
    lookupNames sc stc server0 records0 =
      ⟨Except.ok (resolveServer sc server0,
          cachePass stc (resolveServer sc server0) records0),
       sc, stc, []⟩ := by
  unfold lookupNames
  rw [if_pos ⟨h1, h2⟩]

theorem lookupNames_eq_miss (sc : ServerCache) (stc : SettingCache)
    (server0 : SId) (records0 : List LRec)
    (h : ¬(SId.isName (resolveServer sc server0) = false ∧
           settingLookups (cachePass stc (resolveServer sc server0) records0) = [])) :
    lookupNames sc stc server0 records0 =
      ⟨Except.error Err.typeError, sc, stc,
       [(resolveServer sc server0, unresolvedNames sc stc server0 records0)]⟩ := by
  unfold lookupNames
  rw [if_neg h]
  rfl

/-- Neither cache is ever modified by `_lookupNames`: the fast path does
not touch them, and on a miss the `TypeError` at line 213 fires before
the cache-update lines 215-219 can run. -/
theorem lookupNames_sc_eq (sc : ServerCache) (stc : SettingCache)
    (server0 : SId) (records0 : List LRec) :
    (lookupNames sc stc server0 records0).sc = sc := by
  unfold lookupNames
  split <;> rfl

/-- The settings cache is likewise never modified by `_lookupNames`. -/
theorem lookupNames_stc_eq (sc : ServerCache) (stc : SettingCache)
    (server0 : SId) (records0 : List LRec) :
    (lookupNames sc stc server0 records0).stc = stc := by
  unfold lookupNames
  split <;> rfl

/-- The zero-lookup criterion of `_lookupNames`: no lookup request is
issued exactly when the server and every string setting name already
resolve through the caches. -/
theorem lookupNames_lookups_nil_iff (sc : ServerCache) (stc : SettingCache)
    (server0 : SId) (records0 : List LRec) :
    (lookupNames sc stc server0 records0).lookups = [] ↔
      ∃ n, serverResolved sc server0 = some n ∧
        ∀ r ∈ records0, recResolvable stc n r := by
  by_cases hcond : SId.isName (resolveServer sc server0) = false ∧
      settingLookups (cachePass stc (resolveServer sc server0) records0) = []
  · rw [lookupNames_eq_fast sc stc server0 records0 hcond.1 hcond.2]
    constructor
    · intro _
      obtain ⟨n, hres⟩ := (isName_resolveServer_false_iff sc server0).mp hcond.1
      refine ⟨n, hres, ?_⟩
      have h2 := hcond.2
      rw [resolveServer_eq_of_resolved hres] at h2
      exact resolvable_of_settingLookups_nil h2
    · intro _
      rfl
  · rw [lookupNames_eq_miss sc stc server0 records0 hcond]
    constructor
    · intro hh
      exact absurd hh (by simp)
    · rintro ⟨n, hres, hall⟩
      exfalso
      apply hcond
      refine ⟨(isName_resolveServer_false_iff sc server0).mpr ⟨n, hres⟩, ?_⟩
      rw [resolveServer_eq_of_resolved hres]
      exact settingLookups_cachePass_nil hall

theorem lookupNames_len_le_one (sc : ServerCache) (stc : SettingCache)
    (server0 : SId) (records0 : List LRec) :
    (lookupNames sc stc server0 records0).lookups.length ≤ 1 := by
  by_cases hcond : SId.isName (resolveServer sc server0) = false ∧
      settingLookups (cachePass stc (resolveServer sc server0) records0) = []
  · rw [lookupNames_eq_fast sc stc server0 records0 hcond.1 hcond.2]
    show ([] : List (SId × List String)).length ≤ 1
    simp
  · rw [lookupNames_eq_miss sc stc server0 records0 hcond]
    simp

/-! ### Claim C3 -/

/-- Claim C3: The cache-hit half of the claim holds: zero lookup requests
are issued exactly when the target and every string setting name already
resolve through the caches, and then the call returns the
cache-substituted target and records with both caches untouched.  The
miss half is where the code diverges from the claim: the call does issue
exactly one lookup request carrying the cache-resolved server and
precisely the unresolved setting names, but then line 213
(`serverID, IDs = resp[0][1]`) subscripts the `Future` returned by
`_sendRequestNoLookup` without calling `.result()` and raises
`TypeError`, so the promised cache update and substituted return never
happen, both caches are left untouched, and an identical second call
issues the very same lookup again instead of none.  The claim states the
evident intent — `login` does call `.result()` on the same API, and the
`sendRequest` docstring promises the caching — so the code, not the
claim, is wrong. -/
theorem C3_name_resolution (sc : ServerCache) (stc : SettingCache)
    (server0 : SId) (records0 : List LRec) :
    ((lookupNames sc stc server0 records0).lookups = [] ↔
      ∃ n, serverResolved sc server0 = some n ∧
        ∀ r ∈ records0, recResolvable stc n r) ∧
    ((lookupNames sc stc server0 records0).lookups = [] →
      lookupNames sc stc server0 records0 =
        ⟨Except.ok (resolveServer sc server0,
           cachePass stc (resolveServer sc server0) records0), sc, stc, []⟩) ∧
    ((lookupNames sc stc server0 records0).lookups ≠ [] →
      lookupNames sc stc server0 records0 =
        ⟨Except.error Err.typeError, sc, stc,
         [(resolveServer sc server0, unresolvedNames sc stc server0 records0)]⟩) ∧
    (lookupNames sc stc server0 records0).sc = sc ∧
    (lookupNames sc stc server0 records0).stc = stc ∧
    ((lookupNames sc stc server0 records0).lookups ≠ [] →
      (lookupNames (lookupNames sc stc server0 records0).sc
        (lookupNames sc stc server0 records0).stc server0 records0).lookups =
        [(resolveServer sc server0, unresolvedNames sc stc server0 records0)]) := by
  refine ⟨lookupNames_lookups_nil_iff sc stc server0 records0, ?_, ?_,
          lookupNames_sc_eq sc stc server0 records0,
          lookupNames_stc_eq sc stc server0 records0, ?_⟩
  · intro hnil
    by_cases hcond : SId.isName (resolveServer sc server0) = false ∧
        settingLookups (cachePass stc (resolveServer sc server0) records0) = []
    · exact lookupNames_eq_fast sc stc server0 records0 hcond.1 hcond.2
    · rw [lookupNames_eq_miss sc stc server0 records0 hcond] at hnil
      exact absurd hnil (by simp)
  · intro hne
    by_cases hcond : SId.isName (resolveServer sc server0) = false ∧
        settingLookups (cachePass stc (resolveServer sc server0) records0) = []
    · rw [lookupNames_eq_fast sc stc server0 records0 hcond.1 hcond.2] at hne
      exact absurd rfl hne
    · exact lookupNames_eq_miss sc stc server0 records0 hcond
  · intro hne
    by_cases hcond : SId.isName (resolveServer sc server0) = false ∧
        settingLookups (cachePass stc (resolveServer sc server0) records0) = []
    · rw [lookupNames_eq_fast sc stc server0 records0 hcond.1 hcond.2] at hne
      exact absurd rfl hne
    · rw [lookupNames_sc_eq sc stc server0 records0,
          lookupNames_stc_eq sc stc server0 records0,
          lookupNames_eq_miss sc stc server0 records0 hcond]

/-- Witness for C3 at the failing input: the first call with server name
`"Lakeshore 218"` and setting name `"temperatures"` against empty caches
issues one lookup, raises the `TypeError`, leaves both caches empty, and
a second identical call issues the same lookup again. -/
theorem C3_name_resolution_witness :
    ((lookupNames [] [] (SId.name "Lakeshore 218")
        [⟨SId.name "temperatures", 0⟩]).lookups = [] ↔
      ∃ n, serverResolved [] (SId.name "Lakeshore 218") = some n ∧
        ∀ r ∈ [(⟨SId.name "temperatures", 0⟩ : LRec)], recResolvable [] n r) ∧
    ((lookupNames [] [] (SId.name "Lakeshore 218")
        [⟨SId.name "temperatures", 0⟩]).lookups = [] →
      lookupNames [] [] (SId.name "Lakeshore 218")
          [⟨SId.name "temperatures", 0⟩] =
        ⟨Except.ok (resolveServer [] (SId.name "Lakeshore 218"),
           cachePass [] (resolveServer [] (SId.name "Lakeshore 218"))
             [⟨SId.name "temperatures", 0⟩]), [], [], []⟩) ∧
    ((lookupNames [] [] (SId.name "Lakeshore 218")
        [⟨SId.name "temperatures", 0⟩]).lookups ≠ [] →
      lookupNames [] [] (SId.name "Lakeshore 218")
          [⟨SId.name "temperatures", 0⟩] =
        ⟨Except.error Err.typeError, [], [],
         [(resolveServer [] (SId.name "Lakeshore 218"),
           unresolvedNames [] [] (SId.name "Lakeshore 218")
             [⟨SId.name "temperatures", 0⟩])]⟩) ∧
    (lookupNames [] [] (SId.name "Lakeshore 218")
      [⟨SId.name "temperatures", 0⟩]).sc = [] ∧
    (lookupNames [] [] (SId.name "Lakeshore 218")
      [⟨SId.name "temperatures", 0⟩]).stc = [] ∧
    ((lookupNames [] [] (SId.name "Lakeshore 218")
        [⟨SId.name "temperatures", 0⟩]).lookups ≠ [] →
      (lookupNames
        (lookupNames [] [] (SId.name "Lakeshore 218")
          [⟨SId.name "temperatures", 0⟩]).sc
        (lookupNames [] [] (SId.name "Lakeshore 218")
          [⟨SId.name "temperatures", 0⟩]).stc
        (SId.name "Lakeshore 218") [⟨SId.name "temperatures", 0⟩]).lookups =
        [(resolveServer [] (SId.name "Lakeshore 218"),
          unresolvedNames [] [] (SId.name "Lakeshore 218")
            [⟨SId.name "temperatures", 0⟩])]) :=
  C3_name_resolution [] [] (SId.name "Lakeshore 218")
    [⟨SId.name "temperatures", 0⟩]

/-! ### Claim C6 -/

/-- Claim C6: The handshake failure paths at concrete environments: a wrong
password yields the `'Incorrect password.'` login failure, a rejected
identification yields `'Bad identification.'`, and a low-level failure of
the challenge request is wrapped into a login failure distinguishable
from a plain connection error — these parts of the claim hold.  But in
every failure case the teardown flag is `false`: `_connect` sets
`self.connected = False` before running the handshake, so the
`self.disconnect()` it calls on failure is a no-op and the socket and I/O
thread are **not** torn down before the error propagates, contradicting
the claim's teardown clause (the dead `self.disconnect()` call shows the
intent, so this is a code bug). -/
theorem C6_login_failure_paths :
    connectA ⟨Except.error 7, Except.ok [], Except.ok 0⟩ =
      (Except.error (LoginMsg.wrappedLow 7), false) ∧
    connectA ⟨Except.ok [1], Except.error 0, Except.ok 7⟩ =
      (Except.error LoginMsg.incorrectPassword, false) ∧
    connectA ⟨Except.ok [1], Except.ok [2], Except.error 0⟩ =
      (Except.error LoginMsg.badIdentification, false) ∧
    disconnectF { connected := false } = ({ connected := false }, false) :=
  ⟨rfl, rfl, rfl, rfl⟩

/-! ### Claim C7 -/

/-- Counterexample to C7 as stated: with an uncached server name `"dv"`
and setting name `"s1"`, a `sendRequest` carrying a non-null timeout hint
first has `_lookupNames` issue a lookup request over the wire — network
activity does occur for the failing call — and then fails with the
`TypeError` from backend.py line 213, not with the explicit
unsupported-feature error, because the lookup error fires before the
timeout check in `_sendRequestNoLookup` is ever reached. -/
theorem C7_counterexample :
    (sendRequestF [] [] (SId.name "dv") [⟨SId.name "s1", 0⟩] (some 1)).result =
      Except.error Err.typeError ∧
    (sendRequestF [] [] (SId.name "dv") [⟨SId.name "s1", 0⟩] (some 1)).result ≠
      Except.error Err.timeoutUnsupported ∧
    (sendRequestF [] [] (SId.name "dv") [⟨SId.name "s1", 0⟩] (some 1)).lookups =
      [(SId.name "dv", ["s1"])] := by
  refine ⟨rfl, ?_, rfl⟩
  intro h
  rw [show (sendRequestF [] [] (SId.name "dv") [⟨SId.name "s1", 0⟩]
        (some 1)).result = Except.error Err.typeError from rfl] at h
  injection h with h2
  exact Err.noConfusion h2

/-- Claim C7, amended: Requesting TLS fails synchronously before any
socket is created, so no network activity occurs.  A non-null timeout on
`sendRequest` always fails synchronously and the request's own packet is
never enqueued; when the target and all setting names are numeric or
already cached, the failure is the explicit unsupported-feature error and
no network activity occurs at all — but when some name is uncached, the
preceding name resolution first issues one lookup request over the wire
and the call then fails with the `TypeError` of the broken lookup path,
before the timeout check is reached. -/
theorem C7_unsupported (sc : ServerCache) (stc : SettingCache) (target : SId)
    (records : List LRec) (d : Nat) :
    connectTlsCheck true = (Except.error Err.tlsUnsupported, false) ∧
    (sendRequestF sc stc target records (some d)).enqueuedRequest = none ∧
    (sendRequestF sc stc target records (some d)).lookups.length ≤ 1 ∧
    ((∃ n, serverResolved sc target = some n ∧
        ∀ r ∈ records, recResolvable stc n r) →
      (sendRequestF sc stc target records (some d)).result =
        Except.error Err.timeoutUnsupported ∧
      (sendRequestF sc stc target records (some d)).lookups = []) ∧
    ((¬ ∃ n, serverResolved sc target = some n ∧
        ∀ r ∈ records, recResolvable stc n r) →
      (sendRequestF sc stc target records (some d)).result =
        Except.error Err.typeError ∧
      (sendRequestF sc stc target records (some d)).lookups =
        [(resolveServer sc target, unresolvedNames sc stc target records)]) := by
  refine ⟨rfl, ?_, ?_, ?_, ?_⟩
  · show (sendRequestF sc stc target records (some d)).enqueuedRequest = none
    unfold sendRequestF
    cases hr : (lookupNames sc stc target records).result with
    | error e => rfl
    | ok sr => rfl
  · show (sendRequestF sc stc target records (some d)).lookups.length ≤ 1
    unfold sendRequestF
    cases hr : (lookupNames sc stc target records).result with
    | error e => exact lookupNames_len_le_one sc stc target records
    | ok sr => exact lookupNames_len_le_one sc stc target records
  · intro hres
    obtain ⟨n, hsr, hall⟩ := hres
    have h1 : SId.isName (resolveServer sc target) = false :=
      (isName_resolveServer_false_iff sc target).mpr ⟨n, hsr⟩
    have h2 : settingLookups (cachePass stc (resolveServer sc target) records)
        = [] := by
      rw [resolveServer_eq_of_resolved hsr]
      exact settingLookups_cachePass_nil hall
    have heq := lookupNames_eq_fast sc stc target records h1 h2
    constructor
    · show (sendRequestF sc stc target records (some d)).result = _
      unfold sendRequestF
      rw [heq]
    · show (sendRequestF sc stc target records (some d)).lookups = _
      unfold sendRequestF
      rw [heq]
  · intro hres
    have hcond : ¬(SId.isName (resolveServer sc target) = false ∧
        settingLookups (cachePass stc (resolveServer sc target) records) = []) := by
      intro hc
      apply hres
      obtain ⟨n, hsr⟩ := (isName_resolveServer_false_iff sc target).mp hc.1
      refine ⟨n, hsr, ?_⟩
      have h2 := hc.2
      rw [resolveServer_eq_of_resolved hsr] at h2
      exact resolvable_of_settingLookups_nil h2
    have heq := lookupNames_eq_miss sc stc target records hcond
    constructor
    · show (sendRequestF sc stc target records (some d)).result = _
      unfold sendRequestF
      rw [heq]
    · show (sendRequestF sc stc target records (some d)).lookups = _
      unfold sendRequestF
      rw [heq]

/-- Witness for the amended C7 at fully cached names: the explicit
unsupported-feature error, zero lookups, nothing enqueued. -/
theorem C7_unsupported_witness :
    connectTlsCheck true = (Except.error Err.tlsUnsupported, false) ∧
    (sendRequestF [("Lakeshore 218", 3)] [(3, [("temperatures", 9)])]
        (SId.name "Lakeshore 218") [⟨SId.name "temperatures", 0⟩]
        (some 5)).enqueuedRequest = none ∧
    (sendRequestF [("Lakeshore 218", 3)] [(3, [("temperatures", 9)])]
        (SId.name "Lakeshore 218") [⟨SId.name "temperatures", 0⟩]
        (some 5)).lookups.length ≤ 1 ∧
    ((∃ n, serverResolved [("Lakeshore 218", 3)] (SId.name "Lakeshore 218") = some n ∧
        ∀ r ∈ [(⟨SId.name "temperatures", 0⟩ : LRec)],
          recResolvable [(3, [("temperatures", 9)])] n r) →
      (sendRequestF [("Lakeshore 218", 3)] [(3, [("temperatures", 9)])]
          (SId.name "Lakeshore 218") [⟨SId.name "temperatures", 0⟩]
          (some 5)).result = Except.error Err.timeoutUnsupported ∧
      (sendRequestF [("Lakeshore 218", 3)] [(3, [("temperatures", 9)])]
          (SId.name "Lakeshore 218") [⟨SId.name "temperatures", 0⟩]
          (some 5)).lookups = []) ∧
    ((¬ ∃ n, serverResolved [("Lakeshore 218", 3)]
          (SId.name "Lakeshore 218") = some n ∧
        ∀ r ∈ [(⟨SId.name "temperatures", 0⟩ : LRec)],
          recResolvable [(3, [("temperatures", 9)])] n r) →
      (sendRequestF [("Lakeshore 218", 3)] [(3, [("temperatures", 9)])]
          (SId.name "Lakeshore 218") [⟨SId.name "temperatures", 0⟩]
          (some 5)).result = Except.error Err.typeError ∧
      (sendRequestF [("Lakeshore 218", 3)] [(3, [("temperatures", 9)])]
          (SId.name "Lakeshore 218") [⟨SId.name "temperatures", 0⟩]
          (some 5)).lookups =
        [(resolveServer [("Lakeshore 218", 3)] (SId.name "Lakeshore 218"),
          unresolvedNames [("Lakeshore 218", 3)] [(3, [("temperatures", 9)])]
            (SId.name "Lakeshore 218") [⟨SId.name "temperatures", 0⟩])]) :=
  C7_unsupported [("Lakeshore 218", 3)] [(3, [("temperatures", 9)])]
    (SId.name "Lakeshore 218") [⟨SId.name "temperatures", 0⟩] 5

/-! ### Claim C10 -/

/-- Claim C10: When `enqueue` raises because the engine has terminated, the
facade's `_sendPacket` (the shared path of `sendRequest` and
`sendMessage`) clears the connected flag before re-raising, leaving the
engine untouched; a subsequent `disconnect()` is then a no-op — it
neither calls `drop` (the engine state is unchanged, no sentinel is
queued) nor joins the I/O thread. -/
theorem C10_connected_flag (fc : Facade) (eng : PState) (t : Nat) (c : Nat × Nat)
    (fr : List Nat) (fut : Option Nat) (hdead : eng.alive = false) :
    sendPacketF fc eng t c fr fut =
      (({ connected := false }, eng), some Err.notConnected) ∧
    disconnectA { connected := false } eng = (({ connected := false }, eng), false) := by
  constructor
  · have he : enqueue eng t c fr fut = Except.error Err.notConnected := by
      unfold enqueue
      rw [hdead]
      simp
    unfold sendPacketF
    rw [he]
  · rfl

/-- Witness for C10 at the concrete terminated engine. -/
theorem C10_connected_flag_witness :
    sendPacketF { connected := true } (terminate exS2 Err.connectionLost) 5 (0, 0)
        [] none =
      (({ connected := false }, terminate exS2 Err.connectionLost),
       some Err.notConnected) ∧
    disconnectA { connected := false } (terminate exS2 Err.connectionLost) =
      (({ connected := false }, terminate exS2 Err.connectionLost), false) :=
  C10_connected_flag { connected := true } (terminate exS2 Err.connectionLost)
    5 (0, 0) [] none (by decide)

end LabradBackend
